import Mathlib

set_option maxRecDepth 8192

/-!
# Verification of `building_tools` roof synthesis (`src/core/roof/roof_types.py`)

A shallow embedding of the roof-synthesis module over an explicit mesh state.
Coordinates are rational numbers; the mesh kernel operations consumed by the
module (an external collaborator library) are modelled with the semantics the
module relies on, each with a doc comment stating the modelled behaviour.
Functions translated from `roof_types.py` keep their source names.
-/

namespace RoofTypes

/-- Absolute value on `ℚ`, written explicitly so that all guards reduce. -/
def qabs (q : ℚ) : ℚ := if q < 0 then -q else q

/-- Squaring helper used for all distance comparisons. -/
def sq (q : ℚ) : ℚ := q * q

/-- Modelled from the spec: `equal(a, b)` from the repository `utils` module
(not under `src/`): "exact-or-tolerant equality (`equal(a,b)` with fixed
epsilon, e.g. 1e-4)" (spec §4.3). -/
def equal (a b : ℚ) : Bool := qabs (a - b) ≤ 1 / 10000

/-- Exact rational square root: returns `r ≥ 0` with `r * r = q` when such a
rational exists, `0` otherwise.  Stands in for the kernel's real square root
in length computations; every length appearing in the theorems below is a
rational number, where this function agrees with the real square root. -/
def ratSqrt (q : ℚ) : ℚ :=
  if q.num < 0 then 0
  else
    let a := Nat.sqrt q.num.toNat
    let b := Nat.sqrt q.den
    if a * a = q.num.toNat ∧ b * b = q.den then (a : ℚ) / (b : ℚ) else 0

/-- Floor of a rational as an integer (denominators are positive). -/
def qfloor (q : ℚ) : ℤ := Int.fdiv q.num q.den

/-- Round-half-to-even on `ℚ`, the rounding used by Python's `round`. -/
def roundHalfEven (q : ℚ) : ℤ :=
  let f := qfloor q
  let r := q - f
  if r < 1 / 2 then f
  else if 1 / 2 < r then f + 1
  else if f % 2 = 0 then f else f + 1

/-- Python's `round(x, 4)`, as used by `is_rectangular`. -/
def round4 (q : ℚ) : ℚ := (roundHalfEven (q * 10000) : ℚ) / 10000

/-- A 2D point, as consumed and produced by the straight-skeleton solver. -/
structure Vec2 where
  x : ℚ
  y : ℚ
deriving DecidableEq, Repr

/-- A 3D coordinate (`mathutils.Vector` of a mesh vertex). -/
structure Vec3 where
  x : ℚ
  y : ℚ
  z : ℚ
deriving DecidableEq, Repr

def Vec3.add (a b : Vec3) : Vec3 := ⟨a.x + b.x, a.y + b.y, a.z + b.z⟩

def Vec3.sub (a b : Vec3) : Vec3 := ⟨a.x - b.x, a.y - b.y, a.z - b.z⟩

def Vec3.smul (q : ℚ) (a : Vec3) : Vec3 := ⟨q * a.x, q * a.y, q * a.z⟩

/-- Squared 3D distance (`(a - b).length ** 2`). -/
def distSq (a b : Vec3) : ℚ := sq (a.x - b.x) + sq (a.y - b.y) + sq (a.z - b.z)

/-- Squared 2D (x, y) distance. -/
def distSq2 (a b : Vec3) : ℚ := sq (a.x - b.x) + sq (a.y - b.y)

/-- A mesh vertex (`BMVert`): identity plus coordinate.  Vertices are compared
by identity in the source (Python object identity); `id` models identity. -/
structure Vert where
  id : ℕ
  co : Vec3
deriving DecidableEq, Repr

/-- A mesh edge (`BMEdge`): identity plus its two vertex ids. -/
structure Edge where
  id : ℕ
  v1 : ℕ
  v2 : ℕ
deriving DecidableEq, Repr

/-- A mesh face (`BMFace`): identity plus its vertex cycle. -/
structure Face where
  id : ℕ
  verts : List ℕ
deriving DecidableEq, Repr

/-- The mutable mesh (`bmesh.types.BMesh`), modelled as explicit state.
`nextV`/`nextE`/`nextF` supply fresh identities. -/
structure Mesh where
  verts : List Vert
  edges : List Edge
  faces : List Face
  nextV : ℕ
  nextE : ℕ
  nextF : ℕ
deriving DecidableEq, Repr

def emptyMesh : Mesh := ⟨[], [], [], 0, 0, 0⟩

instance : Inhabited Mesh := ⟨emptyMesh⟩

instance (α β : Type) [DecidableEq α] [DecidableEq β] : DecidableEq (Except α β) :=
  fun x y =>
    match x, y with
    | Except.ok a, Except.ok b => decidable_of_iff (a = b) (by simp)
    | Except.error a, Except.error b => decidable_of_iff (a = b) (by simp)
    | Except.ok _, Except.error _ => isFalse (by simp)
    | Except.error _, Except.ok _ => isFalse (by simp)

def findVert (m : Mesh) (i : ℕ) : Option Vert := m.verts.find? (fun v => v.id = i)

def findEdge (m : Mesh) (i : ℕ) : Option Edge := m.edges.find? (fun e => e.id = i)

def findFace (m : Mesh) (i : ℕ) : Option Face := m.faces.find? (fun f => f.id = i)

def hasVert (m : Mesh) (i : ℕ) : Bool := (findVert m i).isSome

def edgeTouches (e : Edge) (i : ℕ) : Bool := e.v1 = i || e.v2 = i

/-- Whether `v` matches the 2D location `loc` under the tolerant equality,
the (x, y) test performed by `vert_at_loc`. -/
def matchesLoc (loc : Vec2) (v : Vert) : Bool := equal v.co.x loc.x && equal v.co.y loc.y

/-- One step of Python's `max(results, key=lambda v: v.co.z)`: keep the
earlier vertex on ties, replace only on a strictly higher z. -/
def pyMaxF (best w : Vert) : Vert := if best.co.z < w.co.z then w else best

/-- `vert_at_loc(loc, verts, loc_z=None)`: find all verts at `loc` (x, y) and
return the one with the highest z coordinate, or `None`.  The `loc_z` filter
is guarded by Python truthiness (`if loc_z:`), so `loc_z = 0.0` disables it. -/
def vert_at_loc (loc : Vec2) (verts : List Vert) (locZ : Option ℚ) : Option Vert :=
  let hits := verts.filter (fun v =>
    matchesLoc loc v &&
      match locZ with
      | some z => if z = 0 then true else equal v.co.z z
      | none => true)
  match hits with
  | [] => none
  | v :: vs => some (vs.foldl pyMaxF v)

/-- Kernel op `bmesh.ops.create_vert` as used by `make_vert`: append a fresh
vertex at `location` and return it. -/
def make_vert (m : Mesh) (location : Vec3) : Mesh × Vert :=
  let v : Vert := ⟨m.nextV, location⟩
  ({ m with verts := m.verts ++ [v], nextV := m.nextV + 1 }, v)

/-- Existing mesh edge between two vertex ids, if any (`bm.edges.get`). -/
def edgeBetween (m : Mesh) (a b : ℕ) : Option Edge :=
  m.edges.find? (fun e => (e.v1 = a && e.v2 = b) || (e.v1 = b && e.v2 = a))

/-- Kernel op `bmesh.ops.contextual_create` applied to two vertices: create
the edge between them if it does not exist; returns the edge list of the op
result (the edge between the two vertices). -/
def createEdge (m : Mesh) (a b : ℕ) : Mesh × List ℕ :=
  match edgeBetween m a b with
  | some e => (m, [e.id])
  | none =>
      let e : Edge := ⟨m.nextE, a, b⟩
      ({ m with edges := m.edges ++ [e], nextE := m.nextE + 1 }, [e.id])

/-- One step of the welding pass: merge `v` into the earliest kept vertex
within `dist`, or keep it. -/
def weldStep (dist : ℚ) (acc : List Vert × List (ℕ × ℕ)) (v : Vert) :
    List Vert × List (ℕ × ℕ) :=
  match acc.1.find? (fun u => distSq u.co v.co ≤ sq dist) with
  | some u => (acc.1, acc.2 ++ [(v.id, u.id)])
  | none => (acc.1 ++ [v], acc.2)

/-- Welding pass of `bmesh.ops.remove_doubles`: each vertex is merged into the
earliest kept vertex lying within `dist` (3D), producing the kept vertices and
the id renaming for the merged ones. -/
def weldVerts (dist : ℚ) (vs : List Vert) : List Vert × List (ℕ × ℕ) :=
  vs.foldl (weldStep dist) ([], [])

def applyRen (ren : List (ℕ × ℕ)) (i : ℕ) : ℕ :=
  match ren.find? (fun p => p.1 = i) with
  | some p => p.2
  | none => i

/-- Drop consecutive duplicate ids from a face cycle (including wraparound),
leaving cycles without duplicates untouched. -/
def collapseCycle (f : List ℕ) : List ℕ :=
  let dedup := f.foldl (fun acc i => if acc.getLast? = some i then acc else acc ++ [i]) []
  match dedup with
  | [] => []
  | i :: t => if dedup.getLast? = some i ∧ t ≠ [] then i :: t.dropLast else dedup

/-- Whether two edges join the same endpoint pair (in either orientation). -/
def samePair (d e : Edge) : Bool :=
  (d.v1 = e.v1 && d.v2 = e.v2) || (d.v1 = e.v2 && d.v2 = e.v1)

def dedupEdgeStep (acc : List Edge) (e : Edge) : List Edge :=
  if acc.any (fun d => samePair d e) then acc else acc ++ [e]

/-- Keep the first edge for every endpoint pair, dropping later duplicates. -/
def dedupEdges (es : List Edge) : List Edge :=
  es.foldl dedupEdgeStep []

/-- Kernel op `bmesh.ops.remove_doubles(verts, dist)`: weld vertices within
`dist` of each other, remap edges and faces, and drop the edges and faces the
weld degenerates. -/
def remove_doubles (m : Mesh) (dist : ℚ) : Mesh :=
  let wr := weldVerts dist m.verts
  let es := (m.edges.map (fun e =>
      { e with v1 := applyRen wr.2 e.v1, v2 := applyRen wr.2 e.v2 })).filter
    (fun e => e.v1 ≠ e.v2)
  let fs := (m.faces.map (fun f =>
      { f with verts := collapseCycle (f.verts.map (applyRen wr.2)) })).filter
    (fun f => 3 ≤ f.verts.length)
  { m with verts := wr.1, edges := dedupEdges es, faces := fs }

/-- Kernel op `bmesh.utils.edge_split(e, e.verts[0], fac)`: introduce a new
vertex at `fac` of the way from the edge's first vertex to its second; the
edge keeps its identity on the far half and a fresh edge joins the first
vertex to the new one.  Returns (mesh, new edge id, new vert id). -/
def edge_split (m : Mesh) (eid : ℕ) (fac : ℚ) : Mesh × ℕ × ℕ :=
  match findEdge m eid with
  | none => (m, 0, 0)
  | some e =>
      match findVert m e.v1, findVert m e.v2 with
      | some a, some b =>
          let nv : Vert := ⟨m.nextV, Vec3.add a.co (Vec3.smul fac (Vec3.sub b.co a.co))⟩
          let ne : Edge := ⟨m.nextE, e.v1, nv.id⟩
          let es := m.edges.map (fun d => if d.id = eid then { d with v1 := nv.id, v2 := e.v2 } else d)
          ({ m with verts := m.verts ++ [nv], edges := es ++ [ne],
                    nextV := m.nextV + 1, nextE := m.nextE + 1 }, ne.id, nv.id)
      | _, _ => (m, 0, 0)

/-- Whether point `p` lies on the closed 2D segment from `a` to `b`: the
condition under which `mathutils.geometry.intersect_line_line_2d(p, p, a, b)`
(first segment degenerate) returns a point rather than `None`. -/
def onSeg2D (p a b : Vec3) : Bool :=
  ((b.x - a.x) * (p.y - a.y) = (b.y - a.y) * (p.x - a.x)) &&
    ((p.x - a.x) * (b.x - a.x) + (p.y - a.y) * (b.y - a.y) ≥ 0) &&
    ((p.x - b.x) * (a.x - b.x) + (p.y - b.y) * (a.y - b.y) ≥ 0)

/-- Modelled from the spec: `calc_edge_median` from the repository `utils`
module (not under `src/`): the midpoint of an edge (spec §6, "edge
midpoint"). -/
def calc_edge_median (m : Mesh) (eid : ℕ) : Vec3 :=
  match findEdge m eid with
  | none => ⟨0, 0, 0⟩
  | some e =>
      match findVert m e.v1, findVert m e.v2 with
      | some a, some b => Vec3.smul (1 / 2) (Vec3.add a.co b.co)
      | _, _ => ⟨0, 0, 0⟩

/-- Modelled from the spec: a skeleton arc produced by the straight-skeleton
solver (`skeletonize`, in the repository `utils` module, not under `src/`):
"`{ source: Point, sinks: [Point, ...], height: float }`" (spec §3); "each arc
has one `source` node and ≥1 `sink` nodes, plus a `height`" (spec §4.2).
Multiple arcs may share a source or sink point (spec §3). -/
structure Arc where
  source : Vec2
  height : ℚ
  sinks : List Vec2
deriving DecidableEq, Repr

/-- `[arc.height for arc in skeleton if arc.source == source][-1]`: the height
of the last arc in the skeleton whose source equals `p`. -/
def lastSourceHeight (skeleton : List Arc) (p : Vec2) : ℚ :=
  (((skeleton.filter (fun a => a.source = p)).map Arc.height)).getLastD 0

/-- `min([arc.height for arc in skeleton if sink in arc.sinks])`: the minimum
height among all arcs listing `p` as a sink. -/
def minSinkHeight (skeleton : List Arc) (p : Vec2) : ℚ :=
  match (skeleton.filter (fun a => p ∈ a.sinks)).map Arc.height with
  | [] => 0
  | h :: t => t.foldl min h

/-- Source-vertex phase of the `create_hiproof_verts_and_edges` loop body:
reuse the vertex found at the source's (x, y), otherwise create one at
`median.z + height_scale * [arc.height for arc in skeleton if arc.source ==
source][-1]`.  The Bool records whether a vertex was created. -/
def getOrCreateSourceVert (skeleton : List Arc) (medianZ scale : ℚ) (m : Mesh)
    (src : Vec2) : Mesh × Vert × Bool :=
  match vert_at_loc src m.verts none with
  | some v => (m, v, false)
  | none =>
      let ht := scale * lastSourceHeight skeleton src
      let r := make_vert m ⟨src.x, src.y, medianZ + ht⟩
      (r.1, r.2, true)

/-- Sink-vertex phase of the loop body: reuse the vertex found at the sink's
(x, y), otherwise create one at `median.z + height_scale * min([arc.height for
arc in skeleton if sink in arc.sinks])`. -/
def getOrCreateSinkVert (skeleton : List Arc) (medianZ scale : ℚ) (m : Mesh)
    (sink : Vec2) : Mesh × Vert × Bool :=
  match vert_at_loc sink m.verts none with
  | some v => (m, v, false)
  | none =>
      let ht := scale * minSinkHeight skeleton sink
      let r := make_vert m ⟨sink.x, sink.y, medianZ + ht⟩
      (r.1, r.2, true)

/-- Loop state of `create_hiproof_verts_and_edges`: the mesh plus the
`skeleton_edges` and `skeleton_verts` accumulators. -/
structure VEState where
  m : Mesh
  skEdges : List ℕ
  skVerts : List ℕ
deriving DecidableEq, Repr

/-- Body of `for sink in arc.sinks`: create or reuse the sink vertex, always
append it to `skeleton_verts`, and create the edge to the source vertex when
the two differ. -/
def processSink (skeleton : List Arc) (medianZ scale : ℚ) (vsourceId : ℕ)
    (st : VEState) (sink : Vec2) : VEState :=
  let r := getOrCreateSinkVert skeleton medianZ scale st.m sink
  let vsId := r.2.1.id
  let skVerts := st.skVerts ++ [vsId]
  if vsId ≠ vsourceId then
    let c := createEdge r.1 vsourceId vsId
    ⟨c.1, st.skEdges ++ c.2, skVerts⟩
  else ⟨r.1, st.skEdges, skVerts⟩

/-- Body of `for arc in skeleton`: create or reuse the source vertex
(appending it to `skeleton_verts` only on creation), then process the sinks. -/
def processArc (skeleton : List Arc) (medianZ scale : ℚ) (st : VEState)
    (a : Arc) : VEState :=
  let r := getOrCreateSourceVert skeleton medianZ scale st.m a.source
  let skV := if r.2.2 then st.skVerts ++ [r.2.1.id] else st.skVerts
  a.sinks.foldl (processSink skeleton medianZ scale r.2.1.id) ⟨r.1, st.skEdges, skV⟩

/-- The `for arc in skeleton` loop of `create_hiproof_verts_and_edges`. -/
def hipVEFold (m : Mesh) (skeleton : List Arc) (medianZ scale : ℚ) : VEState :=
  skeleton.foldl (processArc skeleton medianZ scale) ⟨m, [], []⟩

/-- The guard of the inner loop of `join_intersecting_verts_and_edges`: vertex
`vid` does not belong to edge `eid` and lies on its 2D segment, so the edge
would be split there. -/
def wouldSplit (m : Mesh) (vid eid : ℕ) : Bool :=
  match findVert m vid, findEdge m eid with
  | some v, some e =>
      if vid = e.v1 || vid = e.v2 then false
      else
        match findVert m e.v1, findVert m e.v2 with
        | some a, some b => onSeg2D v.co a.co b.co
        | _, _ => false
  | _, _ => false

/-- The split factor `(v1.co - v.co).length / e.calc_length()` of
`join_intersecting_verts_and_edges`, computed through its square so that it
stays rational (it equals the real quotient whenever that is rational). -/
def splitFactor (m : Mesh) (vid eid : ℕ) : ℚ :=
  match findVert m vid, findEdge m eid with
  | some v, some e =>
      match findVert m e.v1, findVert m e.v2 with
      | some a, some b => ratSqrt (distSq a.co v.co / distSq a.co b.co)
      | _, _ => 0
  | _, _ => 0

/-- Inner loop body of `join_intersecting_verts_and_edges`: if vertex `vid`
lies on the 2D segment of edge `eid` without touching it, split the edge at
the computed factor and record the new vertex; otherwise leave the mesh
unchanged. -/
def joinStep (acc : Mesh × List ℕ) (vid eid : ℕ) : Mesh × List ℕ :=
  if wouldSplit acc.1 vid eid then
    let r := edge_split acc.1 eid (splitFactor acc.1 vid eid)
    (r.1, acc.2 ++ [r.2.2])
  else acc

/-- `join_intersecting_verts_and_edges(bm, edges, verts)`: for each vertex and
each skeleton edge it does not already touch, split the edge where the vertex
lies on its 2D segment; then merge near-duplicates at distance 0.01 and return
the surviving new split vertices. -/
def join_intersecting_verts_and_edges (m : Mesh) (edgeIds vertIds : List ℕ) :
    Mesh × List ℕ :=
  let r := vertIds.foldl
    (fun acc vid => edgeIds.foldl (fun acc2 eid => joinStep acc2 vid eid) acc)
    (m, [])
  let m2 := remove_doubles r.1 (1 / 100)
  (m2, r.2.filter (fun i => hasVert m2 i))

/-- The vertex filter between the creation loop and the crossing resolution:
keep the recorded skeleton verts that still lie on a skeleton edge and are not
vertices of an original (boundary) edge. -/
def hipSkVertsFiltered (m : Mesh) (skEdges originalEdges skVerts : List ℕ) :
    List ℕ :=
  let skEdgeVerts := (skEdges.filterMap (findEdge m)).flatMap (fun e => [e.v1, e.v2])
  let origVerts := (originalEdges.filterMap (findEdge m)).flatMap (fun e => [e.v1, e.v2])
  skVerts.filter (fun v => v ∈ skEdgeVerts && v ∉ origVerts)

/-- `create_hiproof_verts_and_edges(bm, skeleton, original_edges, median,
height_scale)`: create the ridge vertices and skeleton edges, deduplicate at
distance 1e-4, filter the ridge verts, resolve crossings, and return the mesh
with the final skeleton edge set. -/
def create_hiproof_verts_and_edges (m : Mesh) (skeleton : List Arc)
    (originalEdges : List ℕ) (medianZ scale : ℚ) : Mesh × List ℕ :=
  let st := hipVEFold m skeleton medianZ scale
  let m1 := remove_doubles st.m (1 / 10000)
  let skVerts := hipSkVertsFiltered m1 st.skEdges originalEdges st.skVerts
  let j := join_intersecting_verts_and_edges m1 st.skEdges skVerts
  let skVerts2 := skVerts.filter (fun v => hasVert j.1 v) ++ j.2
  let skEdges2 :=
    (skVerts2.flatMap (fun v => (j.1.edges.filter (fun e => edgeTouches e v)).map Edge.id)).eraseDups
  (j.1, skEdges2)

/-- `get_linked_edges(verts, filter_edges)`: the edges linked to the given
vertices, kept when they belong to `filter_edges` (duplicates preserved, as in
the source list comprehension).  `link_edges` iteration order is modelled as
mesh edge-list order (creation order). -/
def get_linked_edges (m : Mesh) (vids filterIds : List ℕ) : List ℕ :=
  (vids.flatMap (fun v => (m.edges.filter (fun e => edgeTouches e v)).map Edge.id)).filter
    (fun i => i ∈ filterIds)

/-- `list(set(all_verts) - set(verts))` over the vertices of the given edges:
the vertices touched by `linked` that are not in `vids`.  Python set order is
unspecified; it is modelled as first-occurrence order, on which none of the
results below depend. -/
def oppositeVerts (m : Mesh) (linked vids : List ℕ) : List ℕ :=
  (((linked.filterMap (findEdge m)).flatMap (fun e => [e.v1, e.v2])).eraseDups).filter
    (fun v => v ∉ vids)

/-- Squared distance between the medians of two edges; `find_closest_pair_edges`
sorts pairs by the length of the median difference, and comparing nonnegative
lengths is equivalent to comparing their squares. -/
def pairMedDistSq (m : Mesh) (p : ℕ × ℕ) : ℚ :=
  distSq (calc_edge_median m p.1) (calc_edge_median m p.2)

/-- `find_closest_pair_edges(edges_a, edges_b)`: the pair (one edge from each
list) whose medians are closest; `sorted(...)[0]` on an empty product raises,
modelled as an error.  Python's stable sort makes `sorted(...)[0]` the first
pair attaining the minimum, which the fold below computes. -/
def find_closest_pair_edges (m : Mesh) (ea eb : List ℕ) : Except String (ℕ × ℕ) :=
  let pairs := ea.flatMap (fun e1 => eb.map (fun e2 => (e1, e2)))
  match pairs with
  | [] => Except.error "find_closest_pair_edges: empty sequence"
  | p :: ps =>
      Except.ok (ps.foldl (fun best q =>
        if pairMedDistSq m q < pairMedDistSq m best then q else best) p)

/-- Consecutive pairs of a cycle, including the wraparound pair. -/
def cyclePairs {α : Type} (l : List α) : List (α × α) :=
  match l with
  | [] => []
  | a :: t => l.zip (t ++ [a])

/-- Walk the edge set as a single closed cycle: from `cur`, repeatedly follow
the unique unused edge, and succeed when every edge is used and the walk
returns to `start`. -/
def walkCycle : ℕ → List (ℕ × ℕ) → ℕ → ℕ → List ℕ → Option (List ℕ)
  | 0, remaining, start, cur, acc =>
      if remaining = [] ∧ cur = start then some acc else none
  | fuel + 1, remaining, start, cur, acc =>
      if remaining = [] then (if cur = start then some acc else none)
      else
        match remaining.find? (fun p => p.1 = cur || p.2 = cur) with
        | none => none
        | some p =>
            let nxt := if p.1 = cur then p.2 else p.1
            walkCycle fuel (remaining.erase p) start nxt (acc ++ [nxt])

/-- The vertex cycle formed by a set of undirected edges, if they form exactly
one simple closed loop (every vertex of degree two). -/
def cycleFromEdges (pairs : List (ℕ × ℕ)) : Option (List ℕ) :=
  match pairs with
  | [] => none
  | (a, b) :: rest =>
      let versOf := pairs.flatMap (fun p => [p.1, p.2])
      if versOf.eraseDups.all (fun v => versOf.count v = 2) then
        walkCycle pairs.length rest a b [a, b]
      else none

def insertSorted (a : ℕ) : List ℕ → List ℕ
  | [] => [a]
  | b :: t => if a ≤ b then a :: b :: t else b :: insertSorted a t

def sortNat (l : List ℕ) : List ℕ := l.foldr insertSorted []

/-- Kernel op `bmesh.ops.contextual_create` applied to a collection of edges:
create the n-gon face they bound when they form a single closed loop, doing
nothing when such a face already exists ("face creation calls must tolerate
and ignore edges/vertices already forming a face", spec §4.3). -/
def contextualCreateFace (m : Mesh) (edgeIds : List ℕ) : Mesh :=
  let pairs := (edgeIds.eraseDups.filterMap (findEdge m)).map (fun e => (e.v1, e.v2))
  match cycleFromEdges pairs with
  | none => m
  | some cyc =>
      let cyc := cyc.dropLast
      if m.faces.any (fun f => sortNat f.verts = sortNat cyc) then m
      else { m with faces := m.faces ++ [⟨m.nextF, cyc⟩], nextF := m.nextF + 1 }

/-- The common part of the `create_hiproof_faces` loop body, from
`all_verts = [...]` onward: close a triangle, quad, pentagon, hexagon or
heptagon face for the original edge `edId`, falling back through up to two
levels of nearest-pair search; an unresolved deepest level leaves the mesh
unchanged.  `bm.edges.get` on a vertex collection that is not a pair, and
`sorted(pairs)[0]` on an empty product, raise — modelled as errors. -/
def processEdgeCore (skeletonEdges : List ℕ) (m : Mesh) (edId : ℕ)
    (vids linked : List ℕ) : Except String Mesh :=
  let opposite := oppositeVerts m linked vids
  if opposite.length = 1 then
    Except.ok (contextualCreateFace m (linked ++ [edId]))
  else
    match opposite with
    | [o1, o2] =>
        match edgeBetween m o1 o2 with
        | some e2 => Except.ok (contextualCreateFace m (linked ++ [edId, e2.id]))
        | none =>
            let nextSk := skeletonEdges.filter (fun i => i ∉ linked)
            let v1e := get_linked_edges m [o1] nextSk
            let v2e := get_linked_edges m [o2] nextSk
            match find_closest_pair_edges m v1e v2e with
            | Except.error s => Except.error s
            | Except.ok pair =>
                let pairL := [pair.1, pair.2]
                let opposite2 := oppositeVerts m pairL opposite
                if opposite2.length = 1 then
                  Except.ok (contextualCreateFace m ([edId] ++ linked ++ pairL))
                else
                  match opposite2 with
                  | [p1, p2] =>
                      match edgeBetween m p1 p2 with
                      | some e3 =>
                          Except.ok (contextualCreateFace m (pairL ++ linked ++ [edId, e3.id]))
                      | none =>
                          let next2 := nextSk.filter (fun i => i ∉ linked ++ pairL)
                          let w1e := get_linked_edges m [p1] next2
                          let w2e := get_linked_edges m [p2] next2
                          match find_closest_pair_edges m w1e w2e with
                          | Except.error s => Except.error s
                          | Except.ok pair2 =>
                              let pair2L := [pair2.1, pair2.2]
                              let opposite3 := oppositeVerts m pair2L opposite2
                              if opposite3.length = 1 then
                                Except.ok (contextualCreateFace m
                                  ([edId] ++ linked ++ (pairL ++ pair2L)))
                              else Except.ok m
                  | _ => Except.error "edges.get expected a sequence of length 2"
    | _ => Except.error "edges.get expected a sequence of length 2"

/-- One iteration of `for ed in original_edges` in `create_hiproof_faces`:
gather the skeleton edges linked to the edge's vertices, fall back to the
neighbouring original edges' far endpoints when none are linked, skip the
edge when exactly one is linked, and otherwise close a face. -/
def processEdge (skeletonEdges originalEdges : List ℕ) (m : Mesh) (edId : ℕ) :
    Except String Mesh :=
  match findEdge m edId with
  | none => Except.ok m
  | some ed =>
      let verts0 := [ed.v1, ed.v2]
      let linked0 := get_linked_edges m verts0 skeletonEdges
      if linked0.length = 0 then
        let linkedOriginal := get_linked_edges m verts0 originalEdges
        let verts1 := ((linkedOriginal.filterMap (findEdge m)).flatMap
          (fun e => [e.v1, e.v2])).filter (fun v => v ∉ verts0)
        processEdgeCore skeletonEdges m edId verts1
          (get_linked_edges m verts1 skeletonEdges)
      else if linked0.length = 1 then Except.ok m
      else processEdgeCore skeletonEdges m edId verts0 linked0

/-- `create_hiproof_faces(bm, original_edges, skeleton_edges)`: close a roof
face for every original (eave) edge. -/
def create_hiproof_faces (m : Mesh) (originalEdges skeletonEdges : List ℕ) :
    Except String Mesh :=
  originalEdges.foldlM (fun mm edId => processEdge skeletonEdges originalEdges mm edId) m

/-- `face.calc_center_median()`: the average of the face's vertex
coordinates. -/
def calc_center_median (m : Mesh) (f : Face) : Vec3 :=
  let cos := f.verts.filterMap (fun i => (findVert m i).map Vert.co)
  match cos with
  | [] => ⟨0, 0, 0⟩
  | _ =>
      Vec3.smul (1 / (cos.length : ℚ))
        (cos.foldl Vec3.add ⟨0, 0, 0⟩)

/-- The edges of a face, read off its vertex cycle (`face.edges`). -/
def faceEdgeIds (m : Mesh) (f : Face) : List ℕ :=
  (cyclePairs f.verts).filterMap (fun p => (edgeBetween m p.1 p.2).map Edge.id)

/-- Kernel op `bmesh.ops.delete(geom, context="FACES_ONLY")`: remove the
faces, keeping their edges and vertices. -/
def deleteFacesOnly (m : Mesh) (fids : List ℕ) : Mesh :=
  { m with faces := m.faces.filter (fun f => f.id ∉ fids) }

/-- `max([arc.height for arc in skeleton])`. -/
def maxArcHeight (skeleton : List Arc) : ℚ :=
  match skeleton.map Arc.height with
  | [] => 0
  | h :: t => t.foldl max h

/-- The hip synthesis of `create_hip_roof` from the top face onward (source
lines 95–111): extract the face's boundary edges and median, delete the face
(faces only), scale heights by `prop.height / max(arc.height)`, create the
ridge vertices and skeleton edges, and reconstruct the roof faces.  The call
`skeletonize(points, [])` (repository code not under `src/`) is replaced by
the `skeleton` parameter, an output of the solver contract of spec §4.2; the
flat-roof phase of lines 90–92 is modelled separately as `create_flat_roof`. -/
def create_hip_roof_from_skeleton (m : Mesh) (fid : ℕ) (skeleton : List Arc)
    (height : ℚ) : Except String Mesh :=
  match findFace m fid with
  | none => Except.ok m
  | some face =>
      let originalEdges := faceEdgeIds m face
      let median := calc_center_median m face
      let m1 := deleteFacesOnly m [fid]
      let heightScale := height / maxArcHeight skeleton
      let r := create_hiproof_verts_and_edges m1 skeleton originalEdges median.z heightScale
      create_hiproof_faces r.1 originalEdges r.2

/-- Kernel query `face.calc_area()`, modelled for planar horizontal faces (the
footprint regime of this module) as the shoelace area of the (x, y) cycle. -/
def calc_area (cos : List Vec3) : ℚ :=
  qabs ((cyclePairs cos).foldl (fun acc p => acc + (p.1.x * p.2.y - p.2.x * p.1.y)) 0) / 2

/-- Lexicographic (x, y) order on coordinates, the sort key
`lambda v: (v.co.x, v.co.y)` of `is_rectangular`. -/
def lexLt (a b : Vec3) : Bool := a.x < b.x || (a.x = b.x && a.y < b.y)

/-- `is_rectangular(faces)`: compare the summed face area with
`width * length`, where width and length are the coordinate differences
between the lexicographically smallest and largest vertices (the first and
last elements of `sorted(verts, key=lambda v: (v.co.x, v.co.y))`), rounding
both to 4 decimal places. -/
def is_rectangular (faces : List (List Vec3)) : Bool :=
  let face_area := (faces.map calc_area).foldl (· + ·) 0
  let verts := faces.flatMap id
  match verts with
  | [] => true
  | v :: t =>
      let vmin := t.foldl (fun acc w => if lexLt w acc then w else acc) v
      let vmax := t.foldl (fun acc w => if lexLt acc w then w else acc) v
      let width := qabs (vmin.x - vmax.x)
      let length := qabs (vmin.y - vmax.y)
      round4 face_area = round4 (width * length)

/-- The bounding-box area of a vertex collection: the comparison the spec
describes for the rectangularity gate ("comparing summed face area to the
bounding-box area", spec §4.1). -/
def bboxArea (faces : List (List Vec3)) : ℚ :=
  let verts := faces.flatMap id
  match verts with
  | [] => 0
  | v :: t =>
      let xmax := t.foldl (fun acc w => max acc w.x) v.x
      let xmin := t.foldl (fun acc w => min acc w.x) v.x
      let ymax := t.foldl (fun acc w => max acc w.y) v.y
      let ymin := t.foldl (fun acc w => min acc w.y) v.y
      (xmax - xmin) * (ymax - ymin)

/-- The two coordinate axes a gable ridge can be merged onto. -/
inductive Axis
  | x
  | y
deriving DecidableEq, Repr

def Vec3.getAxis (v : Vec3) : Axis → ℚ
  | Axis.x => v.x
  | Axis.y => v.y

def Vec3.setAxis (v : Vec3) : Axis → ℚ → Vec3
  | Axis.x, q => { v with x := q }
  | Axis.y, q => { v with y := q }

/-- The `orientation` parameter of gable synthesis. -/
inductive Orient
  | HORIZONTAL
  | VERTICAL
deriving DecidableEq, Repr

/-- `axis = "x" if prop.orient == "HORIZONTAL" else "y"` (source line 66). -/
def gableAxis : Orient → Axis
  | Orient.HORIZONTAL => Axis.x
  | Orient.VERTICAL => Axis.y

/-- The snapping target of `merge_verts_along_axis`: the midpoint
`getattr((_max.co + _min.co) / 2, axis)` of the axis extremes over the given
vertices. -/
def axisMid (m : Mesh) (vids : List ℕ) (a : Axis) : ℚ :=
  let vs := m.verts.filter (fun v => v.id ∈ vids)
  match vs with
  | [] => 0
  | v :: t =>
      let mx := t.foldl (fun acc w => max acc (w.co.getAxis a)) (v.co.getAxis a)
      let mn := t.foldl (fun acc w => min acc (w.co.getAxis a)) (v.co.getAxis a)
      (mx + mn) / 2

/-- `merge_verts_along_axis(bm, verts, axis)`: snap every given vertex's axis
coordinate to the midpoint of the axis extremes, then remove exact doubles
(`bmesh.ops.remove_doubles` with its default distance 0). -/
def merge_verts_along_axis (m : Mesh) (vids : List ℕ) (a : Axis) : Mesh :=
  let mid := axisMid m vids a
  let m1 := { m with verts := m.verts.map (fun v =>
    if v.id ∈ vids then { v with co := v.co.setAxis a mid } else v) }
  remove_doubles m1 0

/-- A geometry element of a kernel op result (`ret["geom"]`). -/
inductive Geom
  | v (id : ℕ)
  | e (id : ℕ)
  | f (id : ℕ)
deriving DecidableEq, Repr

/-- Modelled from the spec: `filter_geom(geom, BMVert)` from the repository
`utils` module (not under `src/`): keep the elements of the given type. -/
def geomVerts (g : List Geom) : List ℕ :=
  g.filterMap (fun x => match x with | Geom.v i => some i | _ => none)

def geomFaces (g : List Geom) : List ℕ :=
  g.filterMap (fun x => match x with | Geom.f i => some i | _ => none)

/-- Kernel op `bmesh.ops.translate(verts, vec)`. -/
def translate (m : Mesh) (vids : List ℕ) (vec : Vec3) : Mesh :=
  { m with verts := m.verts.map (fun v =>
      if v.id ∈ vids then { v with co := Vec3.add v.co vec } else v) }

/-- Whether the (undirected) vertex pair (a, b) is a boundary pair of face
`f`'s cycle. -/
def pairInCycle (f : Face) (a b : ℕ) : Bool :=
  (cyclePairs f.verts).any (fun p => (p.1 = a && p.2 = b) || (p.1 = b && p.2 = a))

/-- `e.link_faces` for the edge with endpoints (a, b): the faces whose cycle
contains that pair. -/
def facesWithPair (m : Mesh) (a b : ℕ) : List ℕ :=
  (m.faces.filter (fun f => pairInCycle f a b)).map Face.id

/-- Number of occurrences of the undirected pair `p` in a pair list. -/
def countPair (ps : List (ℕ × ℕ)) (p : ℕ × ℕ) : ℕ :=
  (ps.filter (fun q => (q.1 = p.1 && q.2 = p.2) || (q.1 = p.2 && q.2 = p.1))).length

def Vec3.dot (a b : Vec3) : ℚ := a.x * b.x + a.y * b.y + a.z * b.z

/-- The Newell normal of a coordinate cycle (the kernel's face normal before
normalization). -/
def newell (cos : List Vec3) : Vec3 :=
  (cyclePairs cos).foldl
    (fun n p =>
      ⟨n.x + (p.1.y - p.2.y) * (p.1.z + p.2.z),
       n.y + (p.1.z - p.2.z) * (p.1.x + p.2.x),
       n.z + (p.1.x - p.2.x) * (p.1.y + p.2.y)⟩)
    ⟨0, 0, 0⟩

/-- Kernel query `face.normal`: the unit Newell normal (exact whenever the
length is rational, which holds for the axis-aligned faces below). -/
def unitNormal (cos : List Vec3) : Vec3 :=
  let n := newell cos
  let l := ratSqrt (Vec3.dot n n)
  if l = 0 then ⟨0, 0, 0⟩ else Vec3.smul (1 / l) n

def faceNormal (m : Mesh) (f : Face) : Vec3 :=
  unitNormal (f.verts.filterMap (fun i => (findVert m i).map Vert.co))

/-- Append fresh edges for every face cycle pair that has no mesh edge yet. -/
def addMissingFaceEdges (m : Mesh) (fs : List Face) : Mesh :=
  (fs.flatMap (fun f => cyclePairs f.verts)).foldl
    (fun acc p =>
      match edgeBetween acc p.1 p.2 with
      | some _ => acc
      | none => { acc with edges := acc.edges ++ [⟨acc.nextE, p.1, p.2⟩], nextE := acc.nextE + 1 })
    m

/-- Kernel op `bmesh.ops.extrude_face_region(geom=faces)`: duplicate the
region's vertices, create side quads along the region boundary and a moved
copy of each region face, keeping the originals as the far side of the new
volume.  The result geometry lists the new vertices and edges, then the side
faces, then the copied region faces (the code reads the new top face as
`filter_geom(ret["geom"], BMFace)[-1]`). -/
def extrude_face_region (m : Mesh) (fids : List ℕ) : Mesh × List Geom :=
  let region := m.faces.filter (fun f => f.id ∈ fids)
  let rverts := (region.flatMap Face.verts).eraseDups
  let start := m.nextV
  let vmap := rverts.enum.map (fun p => (p.2, start + p.1))
  let mapId := fun (i : ℕ) =>
    match vmap.find? (fun q => q.1 = i) with
    | some q => q.2
    | none => i
  let newVerts := rverts.enum.filterMap (fun p =>
    (findVert m p.2).map (fun v => Vert.mk (start + p.1) v.co))
  let rpairs := region.flatMap (fun f => cyclePairs f.verts)
  let bpairs := rpairs.filter (fun p => countPair rpairs p = 1)
  let sideFaces := bpairs.enum.map (fun q =>
    Face.mk (m.nextF + q.1) [q.2.1, q.2.2, mapId q.2.2, mapId q.2.1])
  let topFaces := region.enum.map (fun q =>
    Face.mk (m.nextF + bpairs.length + q.1) (q.2.verts.map mapId))
  let m1 : Mesh :=
    { m with verts := m.verts ++ newVerts,
             faces := m.faces ++ sideFaces ++ topFaces,
             nextV := m.nextV + rverts.length,
             nextF := m.nextF + bpairs.length + region.length }
  let preE := m1.nextE
  let m2 := addMissingFaceEdges m1 (sideFaces ++ topFaces)
  let newEdgeIds := (List.range (m2.nextE - preE)).map (fun i => preE + i)
  (m2, (newVerts.map (fun v => Geom.v v.id)) ++ (newEdgeIds.map Geom.e)
        ++ (sideFaces.map (fun f => Geom.f f.id)) ++ (topFaces.map (fun f => Geom.f f.id)))

/-- Even-offset displacement direction for a vertex bordered by the given unit
face normals: the direction that displaces each incident face plane by one
unit (for two normals, `(n1 + n2) / (1 + n1·n2)`). -/
def evenOffsetDir (ns : List Vec3) : Vec3 :=
  match ns.eraseDups with
  | [] => ⟨0, 0, 0⟩
  | [n] => n
  | [n1, n2] =>
      let d := 1 + Vec3.dot n1 n2
      if d = 0 then ⟨0, 0, 0⟩ else Vec3.smul (1 / d) (Vec3.add n1 n2)
  | l => Vec3.smul (1 / (l.length : ℚ)) (l.foldl Vec3.add ⟨0, 0, 0⟩)

/-- Kernel op `bmesh.ops.inset_region(faces, depth, use_even_offset=True)`
with zero thickness, as consumed by `create_flat_roof`: move the region faces
along their normals by `depth` with even corner offsets, duplicating the
vertices on the region boundary and joining each boundary edge to its moved
copy with a rim quad.  Edge identities interior to the region are rebuilt
from the faces (no claim below reads them). -/
def inset_region (m : Mesh) (fids : List ℕ) (depth : ℚ) : Mesh :=
  let region := m.faces.filter (fun f => f.id ∈ fids)
  let other := m.faces.filter (fun f => f.id ∉ fids)
  let rverts := (region.flatMap Face.verts).eraseDups
  let disp := fun (vid : ℕ) =>
    Vec3.smul depth (evenOffsetDir ((region.filter (fun f => vid ∈ f.verts)).map (faceNormal m)))
  let isBoundary := fun (vid : ℕ) => other.any (fun f => vid ∈ f.verts)
  let bverts := rverts.filter isBoundary
  let start := m.nextV
  let vmap := bverts.enum.map (fun p => (p.2, start + p.1))
  let mapId := fun (i : ℕ) =>
    match vmap.find? (fun q => q.1 = i) with
    | some q => q.2
    | none => i
  let newVerts := bverts.enum.filterMap (fun p =>
    (findVert m p.2).map (fun v => Vert.mk (start + p.1) (Vec3.add v.co (disp p.2))))
  let movedVerts := m.verts.map (fun v =>
    if v.id ∈ rverts && !isBoundary v.id then { v with co := Vec3.add v.co (disp v.id) } else v)
  let newRegion := region.map (fun f => { f with verts := f.verts.map mapId })
  let rpairs := region.flatMap (fun f => cyclePairs f.verts)
  let bpairs := rpairs.filter (fun p => countPair rpairs p = 1)
  let rims := bpairs.enum.map (fun q =>
    Face.mk (m.nextF + q.1) [q.2.1, q.2.2, mapId q.2.2, mapId q.2.1])
  let keptEdges := m.edges.filter (fun e =>
    (other ++ rims).any (fun f => pairInCycle f e.v1 e.v2))
  let m1 : Mesh :=
    { verts := movedVerts ++ newVerts,
      edges := keptEdges,
      faces := other ++ newRegion ++ rims,
      nextV := m.nextV + bverts.length,
      nextE := m.nextE,
      nextF := m.nextF + bpairs.length }
  addMissingFaceEdges m1 (newRegion ++ rims)

/-- Kernel op `bmesh.ops.delete(geom, context="FACES")`: remove the faces
together with the edges and vertices used only by them. -/
def deleteFaces (m : Mesh) (fids : List ℕ) : Mesh :=
  let fs := m.faces.filter (fun f => f.id ∉ fids)
  let dead := m.faces.filter (fun f => f.id ∈ fids)
  let usedPairs := fs.flatMap (fun f => cyclePairs f.verts)
  let deadPairs := dead.flatMap (fun f => cyclePairs f.verts)
  let keepEdges := m.edges.filter (fun e =>
    !(countPair deadPairs (e.v1, e.v2) ≠ 0) || countPair usedPairs (e.v1, e.v2) ≠ 0)
  let deadVerts := dead.flatMap Face.verts
  let usedVerts := fs.flatMap Face.verts ++ keepEdges.flatMap (fun e => [e.v1, e.v2])
  let keepVerts := m.verts.filter (fun v => !(v.id ∈ deadVerts) || v.id ∈ usedVerts)
  { m with verts := keepVerts, edges := keepEdges, faces := fs }

/-- Kernel op `bmesh.ops.dissolve_faces(faces)`: replace the face group by the
single face bounded by the pairs lying in exactly one group face, dropping the
interior edges; returns the op's `region` output. -/
def dissolve_faces (m : Mesh) (fids : List ℕ) : Mesh × List ℕ :=
  let group := m.faces.filter (fun f => f.id ∈ fids)
  let rest := m.faces.filter (fun f => f.id ∉ fids)
  let gpairs := group.flatMap (fun f => cyclePairs f.verts)
  let bpairs := gpairs.filter (fun p => countPair gpairs p = 1)
  match cycleFromEdges bpairs with
  | none => (m, [])
  | some cyc =>
      let nf : Face := ⟨m.nextF, cyc.dropLast⟩
      let keepEdges := m.edges.filter (fun e => countPair gpairs (e.v1, e.v2) ≠ 2)
      ({ m with faces := rest ++ [nf], edges := keepEdges, nextF := m.nextF + 1 }, [nf.id])

/-- `create_flat_roof(bm, faces, prop)`: extrude the footprint up by
`thickness`, inset the faces around the new top face outward by `outset`,
delete the original faces, and dissolve the faces around the top face into
the resulting top face, which is returned.  (`recalc_face_normals` is an
orientation pass with no effect in this model, where normals are computed on
demand.) -/
def create_flat_roof (m : Mesh) (fids : List ℕ) (thickness outset : ℚ) :
    Mesh × List ℕ :=
  let r := extrude_face_region m fids
  let m1 := translate r.1 (geomVerts r.2) ⟨0, 0, thickness⟩
  let topId := (geomFaces r.2).getLastD 0
  match findFace m1 topId with
  | none => (m1, [])
  | some top =>
      let linkFaces := (((cyclePairs top.verts).flatMap
        (fun p => facesWithPair m1 p.1 p.2)).filter (fun i => i ≠ topId)).eraseDups
      let m2 := inset_region m1 linkFaces outset
      let m3 := deleteFaces m2 fids
      match findFace m3 topId with
      | none => (m3, [])
      | some top2 =>
          let newFaces := ((cyclePairs top2.verts).flatMap
            (fun p => facesWithPair m3 p.1 p.2)).eraseDups
          dissolve_faces m3 newFaces

/-! ## Concrete footprints and skeleton-solver outputs

The straight-skeleton solver (`skeletonize`) is repository code not under
`src/`; its outputs below are modelled from the spec: the solver contract of
§4.2 together with §8, which pins the square's output ("one arc with a single
source at the square's center (2,2) and height equal to half the side length"),
and the true straight skeletons of the rectangle, L and T footprints named by
§8, computed by offsetting the boundary inward at unit speed. -/

/-- A 4×4 square footprint at z = 0 (the flat top face the hip structure is
built on). -/
def squareMesh : Mesh :=
  ⟨[⟨0, ⟨0, 0, 0⟩⟩, ⟨1, ⟨4, 0, 0⟩⟩, ⟨2, ⟨4, 4, 0⟩⟩, ⟨3, ⟨0, 4, 0⟩⟩],
   [⟨0, 0, 1⟩, ⟨1, 1, 2⟩, ⟨2, 2, 3⟩, ⟨3, 3, 0⟩],
   [⟨0, [0, 1, 2, 3]⟩], 4, 4, 1⟩

/-- The solver output on the square pinned by spec §8: one arc, source at the
center (2, 2), height 2, sinking into the four corners. -/
def squareSkeleton : List Arc :=
  [⟨⟨2, 2⟩, 2, [⟨0, 0⟩, ⟨4, 0⟩, ⟨4, 4⟩, ⟨0, 4⟩]⟩]

/-- A 6×4 rectangle footprint at z = 0. -/
def rectMesh : Mesh :=
  ⟨[⟨0, ⟨0, 0, 0⟩⟩, ⟨1, ⟨6, 0, 0⟩⟩, ⟨2, ⟨6, 4, 0⟩⟩, ⟨3, ⟨0, 4, 0⟩⟩],
   [⟨0, 0, 1⟩, ⟨1, 1, 2⟩, ⟨2, 2, 3⟩, ⟨3, 3, 0⟩],
   [⟨0, [0, 1, 2, 3]⟩], 4, 4, 1⟩

/-- The straight skeleton of the 6×4 rectangle: ridge nodes (2,2) and (4,2),
both at height 2 (half the short side). -/
def rectSkeleton : List Arc :=
  [⟨⟨2, 2⟩, 2, [⟨0, 0⟩, ⟨0, 4⟩]⟩, ⟨⟨4, 2⟩, 2, [⟨6, 0⟩, ⟨6, 4⟩, ⟨2, 2⟩]⟩]

/-- An L-shaped footprint (two arms of width 2) at z = 0. -/
def lMesh : Mesh :=
  ⟨[⟨0, ⟨0, 0, 0⟩⟩, ⟨1, ⟨4, 0, 0⟩⟩, ⟨2, ⟨4, 2, 0⟩⟩, ⟨3, ⟨2, 2, 0⟩⟩,
    ⟨4, ⟨2, 4, 0⟩⟩, ⟨5, ⟨0, 4, 0⟩⟩],
   [⟨0, 0, 1⟩, ⟨1, 1, 2⟩, ⟨2, 2, 3⟩, ⟨3, 3, 4⟩, ⟨4, 4, 5⟩, ⟨5, 5, 0⟩],
   [⟨0, [0, 1, 2, 3, 4, 5]⟩], 6, 6, 1⟩

/-- The straight skeleton of the L: ridge nodes (1,1), (3,1), (1,3), all at
height 1 (half the arm width), the reflex corner (2,2) sinking into (1,1). -/
def lSkeleton : List Arc :=
  [⟨⟨1, 1⟩, 1, [⟨0, 0⟩, ⟨2, 2⟩]⟩,
   ⟨⟨3, 1⟩, 1, [⟨4, 0⟩, ⟨4, 2⟩, ⟨1, 1⟩]⟩,
   ⟨⟨1, 3⟩, 1, [⟨0, 4⟩, ⟨2, 4⟩, ⟨1, 1⟩]⟩]

/-- A T-shaped footprint (stem and bar of width 2) at z = 0. -/
def tMesh : Mesh :=
  ⟨[⟨0, ⟨2, 0, 0⟩⟩, ⟨1, ⟨4, 0, 0⟩⟩, ⟨2, ⟨4, 4, 0⟩⟩, ⟨3, ⟨6, 4, 0⟩⟩,
    ⟨4, ⟨6, 6, 0⟩⟩, ⟨5, ⟨0, 6, 0⟩⟩, ⟨6, ⟨0, 4, 0⟩⟩, ⟨7, ⟨2, 4, 0⟩⟩],
   [⟨0, 0, 1⟩, ⟨1, 1, 2⟩, ⟨2, 2, 3⟩, ⟨3, 3, 4⟩, ⟨4, 4, 5⟩, ⟨5, 5, 6⟩,
    ⟨6, 6, 7⟩, ⟨7, 7, 0⟩],
   [⟨0, [0, 1, 2, 3, 4, 5, 6, 7]⟩], 8, 8, 1⟩

/-- The straight skeleton of the T: stem node (3,1), bar nodes (1,5), (5,5),
junction node (3,5), all at height 1; the reflex corners (2,4) and (4,4) sink
into (3,5). -/
def tSkeleton : List Arc :=
  [⟨⟨3, 1⟩, 1, [⟨2, 0⟩, ⟨4, 0⟩]⟩,
   ⟨⟨3, 5⟩, 1, [⟨2, 4⟩, ⟨4, 4⟩, ⟨3, 1⟩]⟩,
   ⟨⟨1, 5⟩, 1, [⟨0, 4⟩, ⟨0, 6⟩, ⟨3, 5⟩]⟩,
   ⟨⟨5, 5⟩, 1, [⟨6, 4⟩, ⟨6, 6⟩, ⟨3, 5⟩]⟩]

/-- Whether a synthesis run completed without an error. -/
def runOk (r : Except String Mesh) : Bool :=
  match r with
  | Except.ok _ => true
  | Except.error _ => false

/-- The mesh a synthesis run produced (the empty mesh on error). -/
def runMesh (r : Except String Mesh) : Mesh :=
  match r with
  | Except.ok m => m
  | Except.error _ => emptyMesh

/-- The hip run on the square of spec §8's scenario. -/
def c3Run : Except String Mesh := create_hip_roof_from_skeleton squareMesh 0 squareSkeleton 2

/-- Hip synthesis on the 6×4 rectangle with requested height 2. -/
def hipRectRun : Except String Mesh := create_hip_roof_from_skeleton rectMesh 0 rectSkeleton 2

/-- Hip synthesis on the L footprint with requested height 1. -/
def hipLRun : Except String Mesh := create_hip_roof_from_skeleton lMesh 0 lSkeleton 1

/-- Hip synthesis on the T footprint with requested height 1. -/
def hipTRun : Except String Mesh := create_hip_roof_from_skeleton tMesh 0 tSkeleton 1

/-- A hip synthesis run completed without error and every given original
(eave) edge, given by its endpoint pair, borders at least one face of the
result. -/
def allEdgesFaced (r : Except String Mesh) (pairs : List (ℕ × ℕ)) : Prop :=
  runOk r = true ∧ ∀ p ∈ pairs, ∃ f ∈ (runMesh r).faces, pairInCycle f p.1 p.2 = true

/-- The sum of the face areas of a footprint (`sum([f.calc_area() ...])`). -/
def sumFaceArea (faces : List (List Vec3)) : ℚ := (faces.map calc_area).foldl (· + ·) 0

/-- A one-face hexagonal footprint: a 4×2 rectangle whose bottom edge is
notched inward to (1,1)–(3,1) and whose top edge is bulged outward through
(3,3) and (1,3).  Its area is 8, its bounding box is 4×3 = 12, yet the
lexicographically extreme vertices are (0,0) and (4,2), so `is_rectangular`
compares 8 with 4·2 = 8 and accepts it. -/
def hexFootprint : List (List Vec3) :=
  [[⟨0, 0, 0⟩, ⟨2, 1, 0⟩, ⟨4, 0, 0⟩, ⟨4, 2, 0⟩, ⟨2, 3, 0⟩, ⟨0, 2, 0⟩]]

/-- The unit square footprint at z = 0 for the flat-roof scenario. -/
def unitSquareMesh : Mesh :=
  ⟨[⟨0, ⟨0, 0, 0⟩⟩, ⟨1, ⟨1, 0, 0⟩⟩, ⟨2, ⟨1, 1, 0⟩⟩, ⟨3, ⟨0, 1, 0⟩⟩],
   [⟨0, 0, 1⟩, ⟨1, 1, 2⟩, ⟨2, 2, 3⟩, ⟨3, 3, 0⟩],
   [⟨0, [0, 1, 2, 3]⟩], 4, 4, 1⟩

/-- Flat-roof synthesis on the unit square with thickness 0.2 and outset 0.3. -/
def flatRun : Mesh × List ℕ := create_flat_roof unitSquareMesh [0] (2 / 10) (3 / 10)

/-- The coordinates of a face of a mesh. -/
def faceCos (m : Mesh) (f : Face) : List Vec3 :=
  f.verts.filterMap (fun i => (findVert m i).map Vert.co)

/-- A face-reconstruction configuration in which the nearest-pair fallback has
no candidate pairs: the original edge 100 = (0,1) links to skeleton edges
(0,2) and (1,3); the opposite vertices 2 and 3 share no edge; vertex 2 has no
further skeleton edge, so `find_closest_pair_edges` receives an empty
product. -/
def c5Mesh : Mesh :=
  ⟨[⟨0, ⟨0, 0, 0⟩⟩, ⟨1, ⟨2, 0, 0⟩⟩, ⟨2, ⟨0, 2, 1⟩⟩, ⟨3, ⟨2, 2, 1⟩⟩, ⟨4, ⟨3, 3, 1⟩⟩],
   [⟨100, 0, 1⟩, ⟨0, 0, 2⟩, ⟨1, 1, 3⟩, ⟨2, 3, 4⟩],
   [], 5, 101, 0⟩

/-- A face-reconstruction configuration that exhausts all three fallback
levels without resolving: the original edge 100 = (0,1) links to skeleton
edges (0,2) and (1,3); each level's nearest-pair search finds exactly one
candidate pair, and after the third level the opposite set {6,7} still has
two vertices, so no face can be closed. -/
def c5wMesh : Mesh :=
  ⟨[⟨0, ⟨0, 0, 0⟩⟩, ⟨1, ⟨2, 0, 0⟩⟩, ⟨2, ⟨0, 1, 1⟩⟩, ⟨3, ⟨2, 1, 1⟩⟩,
    ⟨4, ⟨0, 2, 1⟩⟩, ⟨5, ⟨2, 2, 1⟩⟩, ⟨6, ⟨0, 3, 1⟩⟩, ⟨7, ⟨2, 3, 1⟩⟩],
   [⟨100, 0, 1⟩, ⟨0, 0, 2⟩, ⟨1, 1, 3⟩, ⟨2, 2, 4⟩, ⟨3, 3, 5⟩, ⟨4, 4, 6⟩, ⟨5, 5, 7⟩],
   [], 8, 101, 0⟩

/-- The error message of a failed run (empty string on success). -/
def runErr (r : Except String Mesh) : String :=
  match r with
  | Except.ok _ => ""
  | Except.error s => s

/-- A 10×10 square mesh whose skeleton lists two arcs sharing the source
(5,5) with different heights (1 and 2) — a graph shape spec §3 explicitly
allows ("Multiple arcs may share a source or sink point"). -/
def c6Mesh : Mesh :=
  ⟨[⟨0, ⟨0, 0, 0⟩⟩, ⟨1, ⟨10, 0, 0⟩⟩, ⟨2, ⟨10, 10, 0⟩⟩, ⟨3, ⟨0, 10, 0⟩⟩],
   [⟨0, 0, 1⟩, ⟨1, 1, 2⟩, ⟨2, 2, 3⟩, ⟨3, 3, 0⟩],
   [], 4, 4, 0⟩

def c6Skeleton : List Arc :=
  [⟨⟨5, 5⟩, 1, [⟨3, 3⟩]⟩, ⟨⟨5, 5⟩, 2, [⟨7, 7⟩]⟩]

/-- The vertex/edge stage run on the shared-source skeleton (footprint_z = 0,
height_scale = 1). -/
def c6Run : Mesh × List ℕ := create_hiproof_verts_and_edges c6Mesh c6Skeleton [0, 1, 2, 3] 0 1

/-- A crossing-resolution configuration: skeleton edge 0 runs from (0,0,0) to
(2,0,0); vertex 2 sits at (0,0,1) — on the edge's 2D segment (at its start)
but at a different height. -/
def c7Mesh : Mesh :=
  ⟨[⟨0, ⟨0, 0, 0⟩⟩, ⟨1, ⟨2, 0, 0⟩⟩, ⟨2, ⟨0, 0, 1⟩⟩],
   [⟨0, 0, 1⟩], [], 3, 1, 0⟩

/-- The split position the claim describes: the vertex's 2D projection onto
the edge, at its arc-length fraction along the edge. -/
def specProjectedPoint (m : Mesh) (vid eid : ℕ) : Vec3 :=
  match findVert m vid, findEdge m eid with
  | some v, some e =>
      match findVert m e.v1, findVert m e.v2 with
      | some a, some b =>
          let t := ((v.co.x - a.co.x) * (b.co.x - a.co.x)
            + (v.co.y - a.co.y) * (b.co.y - a.co.y)) / distSq2 a.co b.co
          Vec3.add a.co (Vec3.smul t (Vec3.sub b.co a.co))
      | _, _ => ⟨0, 0, 0⟩
  | _, _ => ⟨0, 0, 0⟩

/-- All node locations of a skeleton: the sources and sinks of its arcs. -/
def nodeLocs (skeleton : List Arc) : List Vec2 :=
  skeleton.flatMap (fun a => a.source :: a.sinks)

/-- 2D squared distance between two solver points. -/
def locDistSq (p q : Vec2) : ℚ := sq (p.x - q.x) + sq (p.y - q.y)

/-- Structural well-formedness of a mesh: vertices pairwise separated beyond
both dedup tolerances, edges non-degenerate with pairwise distinct endpoint
pairs, and face cycles of length at least 3 without consecutive duplicate
vertices. -/
def MeshWf (m : Mesh) : Prop :=
  m.verts.Pairwise (fun v w => sq (1 / 100) < distSq v.co w.co)
    ∧ (∀ e ∈ m.edges, e.v1 ≠ e.v2)
    ∧ m.edges.Pairwise (fun e d => samePair e d = false)
    ∧ (∀ f ∈ m.faces, 3 ≤ f.verts.length ∧ collapseCycle f.verts = f.verts)

/-- Invariant of the `create_hiproof_verts_and_edges` creation loop: the mesh
verts are the initial ones followed by the created ridge vertices `C`; every
created vertex sits exactly at a skeleton node location with the z the code
assigns (last-matching-arc height for sources, minimum sink height for
sinks); created vertices occupy pairwise distinct locations; the edge
well-formedness survives and faces are untouched. -/
def VEInv (m0 : Mesh) (skeleton : List Arc) (medianZ scale : ℚ) (m : Mesh)
    (C : List Vert) : Prop :=
  m.verts = m0.verts ++ C
    ∧ (∀ v ∈ C, ∃ p ∈ nodeLocs skeleton, v.co.x = p.x ∧ v.co.y = p.y
        ∧ (((∃ a ∈ skeleton, a.source = p)
              ∧ v.co.z = medianZ + scale * lastSourceHeight skeleton p)
          ∨ ((∃ a ∈ skeleton, p ∈ a.sinks)
              ∧ v.co.z = medianZ + scale * minSinkHeight skeleton p)))
    ∧ C.Pairwise (fun v w => ¬(v.co.x = w.co.x ∧ v.co.y = w.co.y))
    ∧ (∀ e ∈ m.edges, e.v1 ≠ e.v2)
    ∧ m.edges.Pairwise (fun e d => samePair e d = false)
    ∧ m.faces = m0.faces

/-- No created ridge vertex lies on a skeleton edge it does not already touch
(the crossing-resolution pass finds nothing to split) — the general-position
hypothesis of the height-scaling theorem. -/
def NoCrossings (m0 : Mesh) (skeleton : List Arc) (origIds : List ℕ)
    (medianZ scale : ℚ) : Prop :=
  ∀ vid ∈ hipSkVertsFiltered
      (remove_doubles (hipVEFold m0 skeleton medianZ scale).m (1 / 10000))
      (hipVEFold m0 skeleton medianZ scale).skEdges origIds
      (hipVEFold m0 skeleton medianZ scale).skVerts,
    ∀ eid ∈ (hipVEFold m0 skeleton medianZ scale).skEdges,
      wouldSplit (remove_doubles (hipVEFold m0 skeleton medianZ scale).m (1 / 10000))
        vid eid = false

/-- The C1 witness skeleton: one arc from the square's center at height 2,
sinking into an interior point. -/
def c1wSkeleton : List Arc := [⟨⟨2, 2⟩, 2, [⟨1, 1⟩]⟩]

/-- Vertices used by the C10 witness: two at (0,0) with different heights,
one elsewhere. -/
def c10Verts : List Vert := [⟨0, ⟨0, 0, 1⟩⟩, ⟨1, ⟨0, 0, 5⟩⟩, ⟨2, ⟨3, 3, 9⟩⟩]

/-- Top vertices used by the C8 witness: a 4×2 rectangle ring at z = 2. -/
def c8Mesh : Mesh :=
  ⟨[⟨0, ⟨0, 0, 2⟩⟩, ⟨1, ⟨4, 0, 2⟩⟩, ⟨2, ⟨4, 2, 2⟩⟩, ⟨3, ⟨0, 2, 2⟩⟩], [], [], 4, 0, 0⟩

/-- The axis coordinates of the given vertices of a mesh. -/
def axisCoords (m : Mesh) (vids : List ℕ) (a : Axis) : List ℚ :=
  (m.verts.filter (fun v => v.id ∈ vids)).map (fun v => v.co.getAxis a)

/-- Python's `max(results, key=...)` keeps the first maximum: the fold result
is an element of the candidates. -/
theorem pyMax_mem (v : Vert) (vs : List Vert) : vs.foldl pyMaxF v ∈ v :: vs := by
  induction vs generalizing v with
  | nil => simp
  | cons w t ih =>
    simp only [List.foldl_cons]
    by_cases hc : v.co.z < w.co.z
    · rw [show pyMaxF v w = w from if_pos hc]
      exact List.mem_cons_of_mem v (ih w)
    · rw [show pyMaxF v w = v from if_neg hc]
      rcases List.mem_cons.1 (ih v) with h1 | h1
      · rw [h1]
        exact List.mem_cons_self _ _
      · exact List.mem_cons_of_mem v (List.mem_cons_of_mem w h1)

theorem pyMax_start_le (v : Vert) (vs : List Vert) :
    v.co.z ≤ (vs.foldl pyMaxF v).co.z := by
  induction vs generalizing v with
  | nil => exact le_refl _
  | cons u t ih =>
    simp only [List.foldl_cons]
    by_cases hc : v.co.z < u.co.z
    · rw [show pyMaxF v u = u from if_pos hc]
      exact le_trans (le_of_lt hc) (ih u)
    · rw [show pyMaxF v u = v from if_neg hc]
      exact ih v

/-- The fold result dominates every candidate's z. -/
theorem pyMax_ge (v : Vert) (vs : List Vert) :
    ∀ w ∈ v :: vs, w.co.z ≤ (vs.foldl pyMaxF v).co.z := by
  induction vs generalizing v with
  | nil =>
    intro w hw
    rw [List.mem_singleton] at hw
    subst hw
    exact le_refl _
  | cons u t ih =>
    intro w hw
    simp only [List.foldl_cons]
    have hstep : w ∈ pyMaxF v u :: t ∨ w.co.z ≤ (pyMaxF v u).co.z := by
      rcases List.mem_cons.1 hw with h1 | h1
      · subst h1
        right
        unfold pyMaxF
        by_cases hc : w.co.z < u.co.z
        · rw [if_pos hc]; exact le_of_lt hc
        · rw [if_neg hc]
      · rcases List.mem_cons.1 h1 with h2 | h2
        · subst h2
          right
          unfold pyMaxF
          by_cases hc : v.co.z < w.co.z
          · rw [if_pos hc]
          · rw [if_neg hc]; exact le_of_not_lt hc
        · left; exact List.mem_cons_of_mem _ h2
    rcases hstep with h | h
    · exact ih (pyMaxF v u) w h
    · exact le_trans h (pyMax_start_le (pyMaxF v u) t)

/-- `vert_at_loc` with no z constraint returns `none` exactly when no vertex
matches the location. -/
theorem vert_at_loc_none_iff (loc : Vec2) (verts : List Vert) :
    vert_at_loc loc verts none = none ↔ ∀ w ∈ verts, matchesLoc loc w = false := by
  unfold vert_at_loc
  simp only [Bool.and_true]
  cases hf : verts.filter (fun v => matchesLoc loc v) with
  | nil =>
    simp only [true_iff]
    intro w hw
    by_contra hne
    have : w ∈ verts.filter (fun v => matchesLoc loc v) :=
      List.mem_filter.2 ⟨hw, by simpa using hne⟩
    rw [hf] at this
    exact absurd this (List.not_mem_nil w)
  | cons v vs =>
    simp only [reduceCtorEq, false_iff, not_forall]
    have hv : v ∈ verts.filter (fun w => matchesLoc loc w) := by
      rw [hf]; exact List.mem_cons_self _ _
    rcases List.mem_filter.1 hv with ⟨hv1, hv2⟩
    exact ⟨v, hv1, by simp [hv2]⟩

/-- `vert_at_loc` with no z constraint returns a matching vertex whose z is
maximal among all matching vertices. -/
theorem vert_at_loc_some (loc : Vec2) (verts : List Vert) (v : Vert)
    (h : vert_at_loc loc verts none = some v) :
    v ∈ verts ∧ matchesLoc loc v = true
      ∧ ∀ w ∈ verts, matchesLoc loc w = true → w.co.z ≤ v.co.z := by
  unfold vert_at_loc at h
  simp only [Bool.and_true] at h
  cases hf : verts.filter (fun w => matchesLoc loc w) with
  | nil => rw [hf] at h; exact absurd h (by simp)
  | cons v0 vs =>
    rw [hf] at h
    simp only [Option.some.injEq] at h
    subst h
    have hmem : vs.foldl pyMaxF v0 ∈ v0 :: vs := pyMax_mem v0 vs
    rw [← hf] at hmem
    rcases List.mem_filter.1 hmem with ⟨h1, h2⟩
    refine ⟨h1, h2, ?_⟩
    intro w hw hmat
    have hwf : w ∈ verts.filter (fun u => matchesLoc loc u) :=
      List.mem_filter.2 ⟨hw, hmat⟩
    rw [hf] at hwf
    exact pyMax_ge v0 vs w hwf

/-- C3: For a 4-vertex square footprint of side length 4 at z=0 with requested
height 2, given the skeleton solver returns one arc with a single source at
the square's center (2,2) and height 2, hip synthesis produces exactly one
ridge vertex located at (2,2,2) and exactly 4 triangular roof faces, one per
original footprint edge. -/
theorem C3_square_hip_scenario :
    runOk c3Run = true
      ∧ (runMesh c3Run).verts.filter (fun v => 4 ≤ v.id) = [⟨4, ⟨2, 2, 2⟩⟩]
      ∧ (runMesh c3Run).faces.length = 4
      ∧ (∀ f ∈ (runMesh c3Run).faces, f.verts.length = 3)
      ∧ (∀ p ∈ cyclePairs [0, 1, 2, 3],
          ((runMesh c3Run).faces.filter (fun f => pairInCycle f p.1 p.2)).length = 1) := by
  refine ⟨by with_unfolding_all decide, by with_unfolding_all decide,
    by with_unfolding_all decide, by with_unfolding_all decide,
    by with_unfolding_all decide⟩

/-- C2: For every Original Edge (boundary edge of the footprint) of a simple
rectangular or L-shaped or T-shaped footprint, after hip synthesis completes
that edge borders at least one reconstructed roof face (no eave edge is left
unfaced) — instantiated, as spec §8 prescribes, on a square, a rectangle, an
L-shape and a T-shape footprint with their straight skeletons. -/
theorem C2_manifold_coverage :
    allEdgesFaced c3Run (cyclePairs [0, 1, 2, 3])
      ∧ allEdgesFaced hipRectRun (cyclePairs [0, 1, 2, 3])
      ∧ allEdgesFaced hipLRun (cyclePairs [0, 1, 2, 3, 4, 5])
      ∧ allEdgesFaced hipTRun (cyclePairs [0, 1, 2, 3, 4, 5, 6, 7]) := by
  refine ⟨⟨by with_unfolding_all decide, by with_unfolding_all decide⟩,
    ⟨by with_unfolding_all decide, by with_unfolding_all decide⟩,
    ⟨by with_unfolding_all decide, by with_unfolding_all decide⟩,
    ⟨by with_unfolding_all decide, by with_unfolding_all decide⟩⟩

/-- C4 (code bug): the claim requires gable synthesis to be a no-op on every
footprint whose summed face area differs from its bounding-box area by more
than 1e-4.  `is_rectangular` (the gate of `create_gable_roof`, source line
63) does not compute the bounding-box area: it multiplies the x-extent by the
y-difference of the two lexicographically extreme vertices.  On this
non-rectangular hexagon (area 8, bounding box 12) the gate passes, so gable
synthesis proceeds to edit the mesh instead of being a no-op. -/
theorem C4_rectangularity_gate_failing_input :
    is_rectangular hexFootprint = true
      ∧ sumFaceArea hexFootprint = 8
      ∧ bboxArea hexFootprint = 12
      ∧ 1 / 10000 < qabs (sumFaceArea hexFootprint - bboxArea hexFootprint) := by
  refine ⟨by with_unfolding_all decide, by with_unfolding_all decide,
    by with_unfolding_all decide, by with_unfolding_all decide⟩

/-- C9: For a unit square footprint with thickness=0.2 and outset=0.3,
flat-roof synthesis returns exactly one top face, raised by the thickness,
whose area exceeds the base footprint area by the amount produced by a
uniform 0.3 outward inset on all four sides:
(1 + 2·0.3)² − 1 = 39/25. -/
theorem C9_flat_roof_overhang :
    flatRun.2.length = 1
      ∧ (∀ fid ∈ flatRun.2, ∀ f ∈ flatRun.1.faces, f.id = fid →
          (∀ c ∈ faceCos flatRun.1 f, c.z = 2 / 10)
            ∧ calc_area (faceCos flatRun.1 f) = 64 / 25)
      ∧ calc_area [⟨0, 0, 0⟩, ⟨1, 0, 0⟩, ⟨1, 1, 0⟩, ⟨0, 1, 0⟩] = 1
      ∧ (64 / 25 : ℚ) - 1 = (1 + 2 * (3 / 10)) * (1 + 2 * (3 / 10)) - 1 * 1 := by
  refine ⟨by with_unfolding_all decide, by with_unfolding_all decide,
    by with_unfolding_all decide, by with_unfolding_all decide⟩

/-- C1 counterexample: on the 6×4 rectangle (footprint at z = 0, requested
height 2) the synthesis creates exactly two ridge vertices, (2,2,2) and
(4,2,2), both at the apex height.  The apex equals footprint_z + 2 as the
claim states, but the claim's second half fails: there is no ridge vertex at
the apex such that every other ridge vertex lies strictly between footprint_z
and it — the other ridge vertex is itself at the apex. -/
theorem C1_counterexample :
    (runMesh hipRectRun).verts.filter (fun v => 4 ≤ v.id)
        = [⟨4, ⟨2, 2, 2⟩⟩, ⟨5, ⟨4, 2, 2⟩⟩]
      ∧ ¬ (∃ v ∈ (runMesh hipRectRun).verts.filter (fun v => 4 ≤ v.id),
            v.co.z = 0 + 2
              ∧ ∀ w ∈ (runMesh hipRectRun).verts.filter (fun v => 4 ≤ v.id),
                  w ≠ v → 0 < w.co.z ∧ w.co.z < v.co.z) := by
  refine ⟨by with_unfolding_all decide, by with_unfolding_all decide⟩

/-- C5 counterexample: an original edge whose opposite-vertex set cannot be
resolved does not always fail silently — when a fallback level finds no
candidate edge pairs, `find_closest_pair_edges` evaluates `sorted(...)[0]` on
an empty list and raises instead of absorbing the condition, so the synthesis
run does not complete. -/
theorem C5_counterexample :
    runOk (create_hiproof_faces c5Mesh [100] [0, 1, 2]) = false
      ∧ runErr (create_hiproof_faces c5Mesh [100] [0, 1, 2])
          = "find_closest_pair_edges: empty sequence" := by
  refine ⟨by with_unfolding_all decide, by with_unfolding_all decide⟩

/-- C6 counterexample: while processing the first arc (source (5,5), height
1), the code creates the source vertex with the height of the LAST arc whose
source equals (5,5) — `[arc.height for arc in skeleton if arc.source ==
source][-1]` — producing (5,5,2), not the vertex (5,5,1) the claim's "that
arc's own height" prescribes. -/
theorem C6_counterexample :
    c6Run.1.verts.filter (fun v => 4 ≤ v.id)
        = [⟨4, ⟨5, 5, 2⟩⟩, ⟨5, ⟨3, 3, 1⟩⟩, ⟨6, ⟨7, 7, 2⟩⟩]
      ∧ (c6Skeleton.head?.map Arc.height) = some 1
      ∧ lastSourceHeight c6Skeleton ⟨5, 5⟩ = 2
      ∧ ¬ (∃ v ∈ c6Run.1.verts, v.co = ⟨5, 5, 0 + 1 * 1⟩) := by
  refine ⟨by with_unfolding_all decide, by with_unfolding_all decide,
    by with_unfolding_all decide, by with_unfolding_all decide⟩

/-- C7 counterexample: vertex 2 = (0,0,1) lies on the 2D segment of edge
0 = (0,0,0)–(2,0,0) at projected arc-length fraction 0, but the code splits
the edge at factor `(v1.co - v.co).length / e.calc_length()` = 1/2 — a 3D
distance ratio — placing the new vertex at (1,0,0) instead of the vertex's
projected position (0,0,0). -/
theorem C7_counterexample :
    wouldSplit c7Mesh 2 0 = true
      ∧ splitFactor c7Mesh 2 0 = 1 / 2
      ∧ (findVert (joinStep (c7Mesh, []) 2 0).1 3).map Vert.co = some ⟨1, 0, 0⟩
      ∧ specProjectedPoint c7Mesh 2 0 = ⟨0, 0, 0⟩
      ∧ ((⟨1, 0, 0⟩ : Vec3) ≠ ⟨0, 0, 0⟩) := by
  refine ⟨by with_unfolding_all decide, by with_unfolding_all decide,
    by with_unfolding_all decide, by with_unfolding_all decide,
    by with_unfolding_all decide⟩

/-- C10: For every 2D location queried during ridge-vertex reuse with no z
constraint, if several mesh vertices lie at that (x,y) within the fixed
tolerance, the lookup returns the one with the greatest z coordinate; if no
vertex matches, it returns no vertex (so a new ridge vertex is then
created). -/
theorem C10_vert_at_loc_highest (loc : Vec2) (verts : List Vert) :
    (∀ v, vert_at_loc loc verts none = some v →
        v ∈ verts ∧ matchesLoc loc v = true
          ∧ ∀ w ∈ verts, matchesLoc loc w = true → w.co.z ≤ v.co.z)
      ∧ (vert_at_loc loc verts none = none ↔ ∀ w ∈ verts, matchesLoc loc w = false) :=
  ⟨fun v h => vert_at_loc_some loc verts v h, vert_at_loc_none_iff loc verts⟩

/-- C10 witness: on three concrete vertices, two of which match (0,0), the
lookup returns the matching vertex of greatest z. -/
theorem C10_witness :
    (⟨1, ⟨0, 0, 5⟩⟩ : Vert) ∈ c10Verts
      ∧ matchesLoc ⟨0, 0⟩ ⟨1, ⟨0, 0, 5⟩⟩ = true
      ∧ ∀ w ∈ c10Verts, matchesLoc ⟨0, 0⟩ w = true →
          w.co.z ≤ (⟨1, ⟨0, 0, 5⟩⟩ : Vert).co.z :=
  (C10_vert_at_loc_highest ⟨0, 0⟩ c10Verts).1 ⟨1, ⟨0, 0, 5⟩⟩
    (by with_unfolding_all decide)

theorem foldMax_mem (c : ℚ) (l : List ℚ) : l.foldl max c ∈ c :: l := by
  induction l generalizing c with
  | nil => simp
  | cons u t ih =>
    simp only [List.foldl_cons]
    rcases max_choice c u with h | h
    · rw [h]
      rcases List.mem_cons.1 (ih c) with h1 | h1
      · rw [h1]; exact List.mem_cons_self _ _
      · exact List.mem_cons_of_mem c (List.mem_cons_of_mem u h1)
    · rw [h]
      exact List.mem_cons_of_mem c (ih u)

theorem foldMax_start_le (c : ℚ) (l : List ℚ) : c ≤ l.foldl max c := by
  induction l generalizing c with
  | nil => exact le_refl _
  | cons u t ih => exact le_trans (le_max_left c u) (ih (max c u))

theorem foldMax_ge (c : ℚ) (l : List ℚ) : ∀ x ∈ c :: l, x ≤ l.foldl max c := by
  induction l generalizing c with
  | nil =>
    intro x hx
    rw [List.mem_singleton] at hx
    exact hx ▸ le_refl _
  | cons u t ih =>
    intro x hx
    simp only [List.foldl_cons]
    rcases List.mem_cons.1 hx with h1 | h1
    · exact le_trans (h1 ▸ le_max_left c u) (foldMax_start_le _ t)
    · rcases List.mem_cons.1 h1 with h2 | h2
      · exact le_trans (h2 ▸ le_max_right c u) (foldMax_start_le _ t)
      · exact ih (max c u) x (List.mem_cons_of_mem _ h2)

theorem foldMin_mem (c : ℚ) (l : List ℚ) : l.foldl min c ∈ c :: l := by
  induction l generalizing c with
  | nil => simp
  | cons u t ih =>
    simp only [List.foldl_cons]
    rcases min_choice c u with h | h
    · rw [h]
      rcases List.mem_cons.1 (ih c) with h1 | h1
      · rw [h1]; exact List.mem_cons_self _ _
      · exact List.mem_cons_of_mem c (List.mem_cons_of_mem u h1)
    · rw [h]
      exact List.mem_cons_of_mem c (ih u)

theorem foldMin_start_le (c : ℚ) (l : List ℚ) : l.foldl min c ≤ c := by
  induction l generalizing c with
  | nil => exact le_refl _
  | cons u t ih => exact le_trans (ih (min c u)) (min_le_left c u)

theorem foldMin_le (c : ℚ) (l : List ℚ) : ∀ x ∈ c :: l, l.foldl min c ≤ x := by
  induction l generalizing c with
  | nil =>
    intro x hx
    rw [List.mem_singleton] at hx
    exact hx ▸ le_refl _
  | cons u t ih =>
    intro x hx
    simp only [List.foldl_cons]
    rcases List.mem_cons.1 hx with h1 | h1
    · exact le_trans (foldMin_start_le _ t) (h1 ▸ min_le_left c u)
    · rcases List.mem_cons.1 h1 with h2 | h2
      · exact le_trans (foldMin_start_le _ t) (h2 ▸ min_le_right c u)
      · exact ih (min c u) x (List.mem_cons_of_mem _ h2)

/-- Every vertex kept by the welding fold was already kept or comes from the
input list. -/
theorem weldFold_mem (dist : ℚ) (l : List Vert) (acc : List Vert × List (ℕ × ℕ)) :
    ∀ v ∈ (l.foldl (weldStep dist) acc).1, v ∈ acc.1 ∨ v ∈ l := by
  induction l generalizing acc with
  | nil => intro v hv; exact Or.inl hv
  | cons u t ih =>
    intro v hv
    simp only [List.foldl_cons] at hv
    rcases ih (weldStep dist acc u) v hv with h | h
    · unfold weldStep at h
      cases hf : acc.1.find? (fun w => distSq w.co u.co ≤ sq dist) with
      | some w => rw [hf] at h; exact Or.inl h
      | none =>
        rw [hf] at h
        rcases List.mem_append.1 h with h1 | h1
        · exact Or.inl h1
        · rw [List.mem_singleton] at h1
          exact Or.inr (h1 ▸ List.mem_cons_self u t)
    · exact Or.inr (List.mem_cons_of_mem u h)

/-- `remove_doubles` only ever drops vertices. -/
theorem remove_doubles_verts_subset (m : Mesh) (dist : ℚ) :
    ∀ v ∈ (remove_doubles m dist).verts, v ∈ m.verts := by
  intro v hv
  have hv2 : v ∈ (m.verts.foldl (weldStep dist) ([], [])).1 := hv
  rcases weldFold_mem dist m.verts ([], []) v hv2 with h | h
  · exact absurd h (List.not_mem_nil v)
  · exact h

theorem getAxis_setAxis (v : Vec3) (a : Axis) (q : ℚ) :
    (v.setAxis a q).getAxis a = q := by
  cases a <;> rfl

set_option maxHeartbeats 1000000 in
/-- The snapping target of `merge_verts_along_axis` is the midpoint of the
extreme axis coordinates of the given vertices. -/
theorem axisMid_spec (m : Mesh) (vids : List ℕ) (a : Axis)
    (hne : m.verts.filter (fun v => v.id ∈ vids) ≠ []) :
    ∃ A B, A ∈ axisCoords m vids a
      ∧ (∀ c ∈ axisCoords m vids a, c ≤ A)
      ∧ B ∈ axisCoords m vids a
      ∧ (∀ c ∈ axisCoords m vids a, B ≤ c)
      ∧ axisMid m vids a = (A + B) / 2 := by
  unfold axisMid axisCoords
  cases hvs : m.verts.filter (fun v => v.id ∈ vids) with
  | nil => exact absurd hvs hne
  | cons v t =>
    refine ⟨t.foldl (fun acc w => max acc (w.co.getAxis a)) (v.co.getAxis a),
      t.foldl (fun acc w => min acc (w.co.getAxis a)) (v.co.getAxis a), ?_, ?_, ?_, ?_, rfl⟩
    · have h := foldMax_mem (v.co.getAxis a) (t.map (fun w => w.co.getAxis a))
      rw [List.foldl_map] at h
      simpa using h
    · intro c hc
      have h := foldMax_ge (v.co.getAxis a) (t.map (fun w => w.co.getAxis a)) c
      rw [List.foldl_map] at h
      exact h (by simpa using hc)
    · have h := foldMin_mem (v.co.getAxis a) (t.map (fun w => w.co.getAxis a))
      rw [List.foldl_map] at h
      simpa using h
    · intro c hc
      have h := foldMin_le (v.co.getAxis a) (t.map (fun w => w.co.getAxis a)) c
      rw [List.foldl_map] at h
      exact h (by simpa using hc)

/-- After `merge_verts_along_axis`, every surviving given vertex carries the
midpoint coordinate on the chosen axis. -/
theorem merge_verts_snap (m : Mesh) (vids : List ℕ) (a : Axis) :
    ∀ v ∈ (merge_verts_along_axis m vids a).verts,
      v.id ∈ vids → v.co.getAxis a = axisMid m vids a := by
  intro v hv hid
  have hv1 : v ∈ m.verts.map (fun w =>
      if w.id ∈ vids then { w with co := w.co.setAxis a (axisMid m vids a) } else w) :=
    remove_doubles_verts_subset _ 0 v hv
  rcases List.mem_map.1 hv1 with ⟨w, _, hvw⟩
  by_cases hwid : w.id ∈ vids
  · rw [if_pos hwid] at hvw
    rw [← hvw]
    exact getAxis_setAxis w.co a (axisMid m vids a)
  · rw [if_neg hwid] at hvw
    exact absurd (hvw ▸ hid) hwid

/-- C8: During gable synthesis on a rectangular footprint, after the
ridge-merge step every top vertex has its coordinate on the chosen axis
(x when orientation is HORIZONTAL, y when VERTICAL) equal to the midpoint
between the minimum and maximum values of that coordinate over the top
vertices, collapsing the top rectangle into a single ridge line. -/
theorem C8_merge_verts_along_axis (m : Mesh) (vids : List ℕ) (orient : Orient)
    (hne : m.verts.filter (fun v => v.id ∈ vids) ≠ []) :
    (gableAxis Orient.HORIZONTAL = Axis.x ∧ gableAxis Orient.VERTICAL = Axis.y)
      ∧ (∃ A B, A ∈ axisCoords m vids (gableAxis orient)
          ∧ (∀ c ∈ axisCoords m vids (gableAxis orient), c ≤ A)
          ∧ B ∈ axisCoords m vids (gableAxis orient)
          ∧ (∀ c ∈ axisCoords m vids (gableAxis orient), B ≤ c)
          ∧ axisMid m vids (gableAxis orient) = (A + B) / 2)
      ∧ (∀ v ∈ (merge_verts_along_axis m vids (gableAxis orient)).verts,
          v.id ∈ vids →
            v.co.getAxis (gableAxis orient) = axisMid m vids (gableAxis orient)) :=
  ⟨⟨rfl, rfl⟩, axisMid_spec m vids (gableAxis orient) hne,
    merge_verts_snap m vids (gableAxis orient)⟩

/-- C8 witness: on a concrete 4×2 top ring with the VERTICAL orientation, the
merge step snaps every vertex's y to the midpoint 1. -/
theorem C8_merge_witness :
    (gableAxis Orient.HORIZONTAL = Axis.x ∧ gableAxis Orient.VERTICAL = Axis.y)
      ∧ (∃ A B, A ∈ axisCoords c8Mesh [0, 1, 2, 3] (gableAxis Orient.VERTICAL)
          ∧ (∀ c ∈ axisCoords c8Mesh [0, 1, 2, 3] (gableAxis Orient.VERTICAL), c ≤ A)
          ∧ B ∈ axisCoords c8Mesh [0, 1, 2, 3] (gableAxis Orient.VERTICAL)
          ∧ (∀ c ∈ axisCoords c8Mesh [0, 1, 2, 3] (gableAxis Orient.VERTICAL), B ≤ c)
          ∧ axisMid c8Mesh [0, 1, 2, 3] (gableAxis Orient.VERTICAL) = (A + B) / 2)
      ∧ (∀ v ∈ (merge_verts_along_axis c8Mesh [0, 1, 2, 3]
            (gableAxis Orient.VERTICAL)).verts,
          v.id ∈ [0, 1, 2, 3] →
            v.co.getAxis (gableAxis Orient.VERTICAL)
              = axisMid c8Mesh [0, 1, 2, 3] (gableAxis Orient.VERTICAL)) :=
  C8_merge_verts_along_axis c8Mesh [0, 1, 2, 3] Orient.VERTICAL
    (by with_unfolding_all decide)

/-- C6 (amended): for every skeleton node with no existing mesh vertex at its
(x, y), ridge-vertex synthesis creates a new vertex at
`(x, y, footprint_z + height*scale)`, where height for a node created as a
source is the height of the LAST arc in the skeleton whose source equals that
node (the arc's own height whenever the node sources a single arc), and for a
node created as a sink is the minimum height among all arcs listing it as a
sink. -/
theorem C6_amended (skeleton : List Arc) (medianZ scale : ℚ) (m : Mesh)
    (src sink : Vec2)
    (h1 : vert_at_loc src m.verts none = none)
    (h2 : vert_at_loc sink m.verts none = none) :
    ((getOrCreateSourceVert skeleton medianZ scale m src).2.1.co
        = ⟨src.x, src.y, medianZ + scale * lastSourceHeight skeleton src⟩)
      ∧ ((getOrCreateSourceVert skeleton medianZ scale m src).2.2 = true)
      ∧ ((getOrCreateSourceVert skeleton medianZ scale m src).1.verts
          = m.verts ++ [(getOrCreateSourceVert skeleton medianZ scale m src).2.1])
      ∧ ((getOrCreateSinkVert skeleton medianZ scale m sink).2.1.co
          = ⟨sink.x, sink.y, medianZ + scale * minSinkHeight skeleton sink⟩)
      ∧ ((getOrCreateSinkVert skeleton medianZ scale m sink).2.2 = true)
      ∧ ((getOrCreateSinkVert skeleton medianZ scale m sink).1.verts
          = m.verts ++ [(getOrCreateSinkVert skeleton medianZ scale m sink).2.1]) := by
  unfold getOrCreateSourceVert getOrCreateSinkVert make_vert
  rw [h1, h2]
  exact ⟨rfl, rfl, rfl, rfl, rfl, rfl⟩

/-- C6 amended witness: with no vertex at (5,5) or (7,7), the source vertex is
created at the last matching arc's height and the sink vertex at the minimum
sink height. -/
theorem C6_amended_witness :
    ((getOrCreateSourceVert c6Skeleton 0 1 c6Mesh ⟨5, 5⟩).2.1.co
        = ⟨(5 : ℚ), 5, 0 + 1 * lastSourceHeight c6Skeleton ⟨5, 5⟩⟩)
      ∧ ((getOrCreateSourceVert c6Skeleton 0 1 c6Mesh ⟨5, 5⟩).2.2 = true)
      ∧ ((getOrCreateSourceVert c6Skeleton 0 1 c6Mesh ⟨5, 5⟩).1.verts
          = c6Mesh.verts ++ [(getOrCreateSourceVert c6Skeleton 0 1 c6Mesh ⟨5, 5⟩).2.1])
      ∧ ((getOrCreateSinkVert c6Skeleton 0 1 c6Mesh ⟨7, 7⟩).2.1.co
          = ⟨(7 : ℚ), 7, 0 + 1 * minSinkHeight c6Skeleton ⟨7, 7⟩⟩)
      ∧ ((getOrCreateSinkVert c6Skeleton 0 1 c6Mesh ⟨7, 7⟩).2.2 = true)
      ∧ ((getOrCreateSinkVert c6Skeleton 0 1 c6Mesh ⟨7, 7⟩).1.verts
          = c6Mesh.verts ++ [(getOrCreateSinkVert c6Skeleton 0 1 c6Mesh ⟨7, 7⟩).2.1]) :=
  C6_amended c6Skeleton 0 1 c6Mesh ⟨5, 5⟩ ⟨7, 7⟩
    (by with_unfolding_all decide) (by with_unfolding_all decide)

/-- C7 (amended): during crossing resolution, a vertex that touches the edge
or does not lie on its 2D segment causes no split; a vertex on the segment
splits the edge at the fraction `(v1.co - v.co).length / e.calc_length()`
from the edge's first vertex — a 3D distance ratio, which equals the 2D
projected arc-length fraction only when the z offsets vanish — placing the
new vertex at `v1 + fac * (v2 - v1)`. -/
theorem C7_amended (m : Mesh) (acc : List ℕ) (vid eid : ℕ) (v : Vert) (e : Edge)
    (a b : Vert)
    (hv : findVert m vid = some v) (he : findEdge m eid = some e)
    (ha : findVert m e.v1 = some a) (hb : findVert m e.v2 = some b)
    (hfresh : findVert m m.nextV = none) :
    ((vid = e.v1 ∨ vid = e.v2) → joinStep (m, acc) vid eid = (m, acc))
      ∧ (onSeg2D v.co a.co b.co = false → joinStep (m, acc) vid eid = (m, acc))
      ∧ (vid ≠ e.v1 → vid ≠ e.v2 → onSeg2D v.co a.co b.co = true →
          joinStep (m, acc) vid eid
              = ((edge_split m eid (splitFactor m vid eid)).1,
                 acc ++ [(edge_split m eid (splitFactor m vid eid)).2.2])
            ∧ splitFactor m vid eid = ratSqrt (distSq a.co v.co / distSq a.co b.co)
            ∧ findVert (edge_split m eid (splitFactor m vid eid)).1
                  (edge_split m eid (splitFactor m vid eid)).2.2
                = some ⟨m.nextV, Vec3.add a.co
                    (Vec3.smul (splitFactor m vid eid) (Vec3.sub b.co a.co))⟩) := by
  have hws : wouldSplit m vid eid
      = (if vid = e.v1 || vid = e.v2 then false else onSeg2D v.co a.co b.co) := by
    simp only [wouldSplit, hv, he, ha, hb]
  have hsf : splitFactor m vid eid = ratSqrt (distSq a.co v.co / distSq a.co b.co) := by
    simp only [splitFactor, hv, he, ha, hb]
  have hj : joinStep (m, acc) vid eid
      = (if wouldSplit m vid eid then
          ((edge_split m eid (splitFactor m vid eid)).1,
            acc ++ [(edge_split m eid (splitFactor m vid eid)).2.2])
        else (m, acc)) := rfl
  refine ⟨?_, ?_, ?_⟩
  · intro htouch
    have hc : wouldSplit m vid eid = false := by
      rw [hws]
      rcases htouch with h | h
      · simp [h]
      · simp [h]
    rw [hj, hc]
    rfl
  · intro hseg
    by_cases h1 : vid = e.v1
    · have hc : wouldSplit m vid eid = false := by rw [hws]; simp [h1]
      rw [hj, hc]; rfl
    · by_cases h2 : vid = e.v2
      · have hc : wouldSplit m vid eid = false := by rw [hws]; simp [h2]
        rw [hj, hc]; rfl
      · have hc : wouldSplit m vid eid = false := by rw [hws]; simp [h1, h2, hseg]
        rw [hj, hc]; rfl
  · intro hn1 hn2 hseg
    have hcond : wouldSplit m vid eid = true := by
      rw [hws]; simp [hn1, hn2, hseg]
    refine ⟨?_, hsf, ?_⟩
    · rw [hj, hcond]
      rfl
    · simp only [edge_split, he, ha, hb]
      unfold findVert at hfresh ⊢
      rw [List.find?_append, hfresh]
      simp

/-- C7 amended witness: on the concrete crossing configuration, the touching
and off-segment cases leave the mesh unchanged, and the on-segment case splits
edge 0 at the 3D ratio 1/2. -/
theorem C7_amended_witness :
    (((2 : ℕ) = (0 : ℕ) ∨ (2 : ℕ) = (1 : ℕ)) →
        joinStep (c7Mesh, []) 2 0 = (c7Mesh, []))
      ∧ (onSeg2D (⟨0, 0, 1⟩ : Vec3) (⟨0, 0, 0⟩ : Vec3) (⟨2, 0, 0⟩ : Vec3) = false →
          joinStep (c7Mesh, []) 2 0 = (c7Mesh, []))
      ∧ ((2 : ℕ) ≠ (0 : ℕ) → (2 : ℕ) ≠ (1 : ℕ) →
          onSeg2D (⟨0, 0, 1⟩ : Vec3) (⟨0, 0, 0⟩ : Vec3) (⟨2, 0, 0⟩ : Vec3) = true →
          joinStep (c7Mesh, []) 2 0
              = ((edge_split c7Mesh 0 (splitFactor c7Mesh 2 0)).1,
                 [] ++ [(edge_split c7Mesh 0 (splitFactor c7Mesh 2 0)).2.2])
            ∧ splitFactor c7Mesh 2 0
                = ratSqrt (distSq (⟨0, 0, 0⟩ : Vec3) ⟨0, 0, 1⟩
                    / distSq (⟨0, 0, 0⟩ : Vec3) ⟨2, 0, 0⟩)
            ∧ findVert (edge_split c7Mesh 0 (splitFactor c7Mesh 2 0)).1
                  (edge_split c7Mesh 0 (splitFactor c7Mesh 2 0)).2.2
                = some ⟨c7Mesh.nextV, Vec3.add (⟨0, 0, 0⟩ : Vec3)
                    (Vec3.smul (splitFactor c7Mesh 2 0)
                      (Vec3.sub (⟨2, 0, 0⟩ : Vec3) ⟨0, 0, 0⟩))⟩) :=
  C7_amended c7Mesh [] 2 0 ⟨2, ⟨0, 0, 1⟩⟩ ⟨0, 0, 1⟩ ⟨0, ⟨0, 0, 0⟩⟩ ⟨1, ⟨2, 0, 0⟩⟩
    (by with_unfolding_all decide) (by with_unfolding_all decide)
    (by with_unfolding_all decide) (by with_unfolding_all decide)
    (by with_unfolding_all decide)

/-- C5 (amended): for every Original Edge whose opposite-vertex set cannot be
resolved within the bounded fallback depth of 3 nearest-pair search levels,
face reconstruction creates no face for that edge and absorbs the condition
locally — provided every fallback level finds at least one candidate pair and
every intermediate opposite-vertex set is a pair (otherwise, as
`C5_counterexample` shows, an error is raised instead). -/
theorem C5_amended (skEdges origEdges : List ℕ) (m : Mesh) (edId : ℕ) (e : Edge)
    (linked : List ℕ) (o1 o2 p1 p2 : ℕ) (pr pr2 : ℕ × ℕ)
    (he : findEdge m edId = some e)
    (hlinked : get_linked_edges m [e.v1, e.v2] skEdges = linked)
    (hlen : 2 ≤ linked.length)
    (hopp : oppositeVerts m linked [e.v1, e.v2] = [o1, o2])
    (hnoedge : edgeBetween m o1 o2 = none)
    (hp : find_closest_pair_edges m
        (get_linked_edges m [o1] (skEdges.filter (fun i => i ∉ linked)))
        (get_linked_edges m [o2] (skEdges.filter (fun i => i ∉ linked)))
      = Except.ok pr)
    (hopp2 : oppositeVerts m [pr.1, pr.2] [o1, o2] = [p1, p2])
    (hnoedge2 : edgeBetween m p1 p2 = none)
    (hp2 : find_closest_pair_edges m
        (get_linked_edges m [p1] ((skEdges.filter (fun i => i ∉ linked)).filter
          (fun i => i ∉ linked ++ [pr.1, pr.2])))
        (get_linked_edges m [p2] ((skEdges.filter (fun i => i ∉ linked)).filter
          (fun i => i ∉ linked ++ [pr.1, pr.2])))
      = Except.ok pr2)
    (hfail : (oppositeVerts m [pr2.1, pr2.2] [p1, p2]).length ≠ 1) :
    processEdge skEdges origEdges m edId = Except.ok m := by
  simp only [processEdge, he, hlinked]
  rw [if_neg (by omega), if_neg (by omega)]
  simp only [processEdgeCore, hopp]
  rw [if_neg (by simp)]
  rw [hnoedge, hp]
  simp only [hopp2]
  rw [if_neg (by simp)]
  rw [hnoedge2, hp2]
  simp only []
  rw [if_neg hfail]

/-- C5 amended witness: on the concrete three-level chain, reconstruction
exhausts the fallback depth, creates no face and raises no error. -/
theorem C5_amended_witness :
    processEdge [0, 1, 2, 3, 4, 5] [100] c5wMesh 100 = Except.ok c5wMesh :=
  C5_amended [0, 1, 2, 3, 4, 5] [100] c5wMesh 100 ⟨100, 0, 1⟩ [0, 1] 2 3 4 5 (2, 3) (4, 5)
    (by with_unfolding_all decide) (by with_unfolding_all decide)
    (by with_unfolding_all decide) (by with_unfolding_all decide)
    (by with_unfolding_all decide) (by with_unfolding_all decide)
    (by with_unfolding_all decide) (by with_unfolding_all decide)
    (by with_unfolding_all decide) (by with_unfolding_all decide)

theorem qabs_nonneg (q : ℚ) : 0 ≤ qabs q := by
  unfold qabs
  split
  · linarith
  · linarith

theorem sq_nonneg_q (q : ℚ) : 0 ≤ sq q := mul_self_nonneg q

theorem sq_le_of_qabs_le (q c : ℚ) (h : qabs q ≤ c) : sq q ≤ sq c := by
  unfold qabs at h
  unfold sq
  split at h
  · nlinarith
  · nlinarith

theorem equal_iff (a b : ℚ) : equal a b = true ↔ qabs (a - b) ≤ 1 / 10000 := by
  unfold equal
  exact decide_eq_true_iff

theorem equal_self (a : ℚ) : equal a a = true := by
  rw [equal_iff]
  rw [sub_self]
  rw [show qabs 0 = 0 from rfl]
  norm_num

theorem matchesLoc_self (p : Vec2) (v : Vert) (hx : v.co.x = p.x) (hy : v.co.y = p.y) :
    matchesLoc p v = true := by
  unfold matchesLoc
  rw [hx, hy, equal_self, equal_self]
  rfl

theorem not_matchesLoc_of_sep (p : Vec2) (v : Vert)
    (h : sq (1 / 100) < sq (v.co.x - p.x) + sq (v.co.y - p.y)) :
    matchesLoc p v = false := by
  by_contra hne
  have ht : matchesLoc p v = true := by
    cases hm : matchesLoc p v
    · exact absurd hm hne
    · rfl
  unfold matchesLoc at ht
  rw [Bool.and_eq_true] at ht
  have hx := sq_le_of_qabs_le _ _ ((equal_iff _ _).1 ht.1)
  have hy := sq_le_of_qabs_le _ _ ((equal_iff _ _).1 ht.2)
  have : sq (1 / 10000 : ℚ) + sq (1 / 10000 : ℚ) < sq (1 / 100 : ℚ) := by
    unfold sq
    norm_num
  linarith

theorem getLastD_mem (l : List ℚ) : ∀ d, l ≠ [] → l.getLastD d ∈ l := by
  induction l with
  | nil => intro d h; exact absurd rfl h
  | cons a t ih =>
    intro d _
    cases t with
    | nil => simp
    | cons b u =>
      have h1 : (a :: b :: u).getLastD d = (b :: u).getLastD a := rfl
      rw [h1]
      exact List.mem_cons_of_mem a (ih a (by simp))

theorem maxArcHeight_ge (skeleton : List Arc) (a : Arc) (ha : a ∈ skeleton) :
    a.height ≤ maxArcHeight skeleton := by
  unfold maxArcHeight
  have hm : a.height ∈ skeleton.map Arc.height := List.mem_map_of_mem Arc.height ha
  cases hs : skeleton.map Arc.height with
  | nil => rw [hs] at hm; exact absurd hm (List.not_mem_nil _)
  | cons h t =>
    rw [hs] at hm
    exact foldMax_ge h t a.height hm

theorem maxArcHeight_mem (skeleton : List Arc) (hne : skeleton ≠ []) :
    ∃ a ∈ skeleton, maxArcHeight skeleton = a.height := by
  unfold maxArcHeight
  cases hs : skeleton.map Arc.height with
  | nil => exact absurd (List.map_eq_nil.1 hs) hne
  | cons h t =>
    have hm : t.foldl max h ∈ h :: t := foldMax_mem h t
    rw [← hs] at hm
    rcases List.mem_map.1 hm with ⟨a, ha, hh⟩
    exact ⟨a, ha, hh.symm⟩

theorem maxArcHeight_pos (skeleton : List Arc) (hne : skeleton ≠ [])
    (hpos : ∀ a ∈ skeleton, 0 < a.height) : 0 < maxArcHeight skeleton := by
  rcases maxArcHeight_mem skeleton hne with ⟨a, ha, hh⟩
  rw [hh]
  exact hpos a ha

theorem lastSourceHeight_eq (skeleton : List Arc) (p : Vec2)
    (h : ∃ a ∈ skeleton, a.source = p) :
    ∃ b ∈ skeleton, b.source = p ∧ lastSourceHeight skeleton p = b.height := by
  unfold lastSourceHeight
  obtain ⟨a, ha, hap⟩ := h
  have hmem : a ∈ skeleton.filter (fun x => x.source = p) :=
    List.mem_filter.2 ⟨ha, by simp [hap]⟩
  have hne2 : (skeleton.filter (fun x => x.source = p)).map Arc.height ≠ [] := by
    intro hc
    rw [List.map_eq_nil] at hc
    rw [hc] at hmem
    exact absurd hmem (List.not_mem_nil a)
  have hlast := getLastD_mem _ 0 hne2
  rcases List.mem_map.1 hlast with ⟨b, hb, hh⟩
  rcases List.mem_filter.1 hb with ⟨hb1, hb2⟩
  exact ⟨b, hb1, by simpa using hb2, hh.symm⟩

theorem lastSourceHeight_const (skeleton : List Arc) (p : Vec2) (h : ℚ)
    (hex : ∃ a ∈ skeleton, a.source = p)
    (hall : ∀ b ∈ skeleton, b.source = p → b.height = h) :
    lastSourceHeight skeleton p = h := by
  rcases lastSourceHeight_eq skeleton p hex with ⟨b, hb, hbp, heq⟩
  rw [heq]
  exact hall b hb hbp

theorem minSinkHeight_eq (skeleton : List Arc) (p : Vec2)
    (h : ∃ a ∈ skeleton, p ∈ a.sinks) :
    ∃ b ∈ skeleton, p ∈ b.sinks ∧ minSinkHeight skeleton p = b.height := by
  unfold minSinkHeight
  obtain ⟨a, ha, hap⟩ := h
  have hmem : a ∈ skeleton.filter (fun x => p ∈ x.sinks) :=
    List.mem_filter.2 ⟨ha, by simp [hap]⟩
  cases hs : (skeleton.filter (fun x => p ∈ x.sinks)).map Arc.height with
  | nil =>
    rw [List.map_eq_nil] at hs
    rw [hs] at hmem
    exact absurd hmem (List.not_mem_nil a)
  | cons h0 t =>
    have hm : t.foldl min h0 ∈ h0 :: t := foldMin_mem h0 t
    rw [← hs] at hm
    rcases List.mem_map.1 hm with ⟨b, hb, hh⟩
    rcases List.mem_filter.1 hb with ⟨hb1, hb2⟩
    exact ⟨b, hb1, by simpa using hb2, hh.symm⟩

theorem map_eq_self_of {α : Type} (l : List α) (f : α → α) (h : ∀ a ∈ l, f a = a) :
    l.map f = l := by
  induction l with
  | nil => rfl
  | cons a t ih =>
    rw [List.map_cons, h a (List.mem_cons_self a t),
      ih (fun b hb => h b (List.mem_cons_of_mem a hb))]

theorem weldFold_id (dist : ℚ) :
    ∀ (l ks : List Vert),
      (∀ u ∈ ks, ∀ v ∈ l, ¬(distSq u.co v.co ≤ sq dist)) →
      l.Pairwise (fun v w => ¬(distSq v.co w.co ≤ sq dist)) →
      l.foldl (weldStep dist) (ks, []) = (ks ++ l, []) := by
  intro l
  induction l with
  | nil => intro ks _ _; simp
  | cons v t ih =>
    intro ks hks hpw
    simp only [List.foldl_cons]
    have hfind : ks.find? (fun u => distSq u.co v.co ≤ sq dist) = none := by
      rw [List.find?_eq_none]
      intro u hu
      simpa using hks u hu v (List.mem_cons_self v t)
    have hstep : weldStep dist (ks, []) v = (ks ++ [v], []) := by
      unfold weldStep
      rw [hfind]
    rw [hstep]
    rcases List.pairwise_cons.1 hpw with ⟨hv, ht⟩
    have hks2 : ∀ u ∈ ks ++ [v], ∀ w ∈ t, ¬(distSq u.co w.co ≤ sq dist) := by
      intro u hu w hw
      rcases List.mem_append.1 hu with h1 | h1
      · exact hks u h1 w (List.mem_cons_of_mem v hw)
      · rw [List.mem_singleton] at h1
        exact h1 ▸ hv w hw
    rw [ih (ks ++ [v]) hks2 ht, List.append_assoc]
    rfl

theorem weldVerts_id (dist : ℚ) (vs : List Vert)
    (h : vs.Pairwise (fun v w => ¬(distSq v.co w.co ≤ sq dist))) :
    weldVerts dist vs = (vs, []) := by
  unfold weldVerts
  have := weldFold_id dist vs [] (by intro u hu; exact absurd hu (List.not_mem_nil u)) h
  simpa using this

theorem dedupFold_id :
    ∀ (l ks : List Edge),
      (∀ d ∈ ks, ∀ e ∈ l, samePair d e = false) →
      l.Pairwise (fun e d => samePair e d = false) →
      l.foldl dedupEdgeStep ks = ks ++ l := by
  intro l
  induction l with
  | nil => intro ks _ _; simp
  | cons e t ih =>
    intro ks hks hpw
    simp only [List.foldl_cons]
    have hany : ks.any (fun d => samePair d e) = false := by
      rw [List.any_eq_false]
      intro d hd
      simp [hks d hd e (List.mem_cons_self e t)]
    have hstep : dedupEdgeStep ks e = ks ++ [e] := by
      unfold dedupEdgeStep
      rw [hany]
      simp
    rw [hstep]
    rcases List.pairwise_cons.1 hpw with ⟨he, ht⟩
    have hks2 : ∀ d ∈ ks ++ [e], ∀ x ∈ t, samePair d x = false := by
      intro d hd x hx
      rcases List.mem_append.1 hd with h1 | h1
      · exact hks d h1 x (List.mem_cons_of_mem e hx)
      · rw [List.mem_singleton] at h1
        exact h1 ▸ he x hx
    rw [ih (ks ++ [e]) hks2 ht, List.append_assoc]
    rfl

/-- When all vertices are pairwise farther apart than the weld distance and
the edges and faces are well-formed, `remove_doubles` is the identity. -/
theorem remove_doubles_id (m : Mesh) (dist : ℚ)
    (hv : m.verts.Pairwise (fun v w => ¬(distSq v.co w.co ≤ sq dist)))
    (he1 : ∀ e ∈ m.edges, e.v1 ≠ e.v2)
    (he2 : m.edges.Pairwise (fun e d => samePair e d = false))
    (hf : ∀ f ∈ m.faces, 3 ≤ f.verts.length ∧ collapseCycle f.verts = f.verts) :
    remove_doubles m dist = m := by
  unfold remove_doubles
  rw [weldVerts_id dist m.verts hv]
  simp only
  have hmape : m.edges.map (fun e =>
      { e with v1 := applyRen [] e.v1, v2 := applyRen [] e.v2 }) = m.edges :=
    map_eq_self_of m.edges _ (fun e _ => rfl)
  have hmapf : m.faces.map (fun f =>
      { f with verts := collapseCycle (f.verts.map (applyRen [])) }) = m.faces := by
    refine map_eq_self_of m.faces _ (fun f hfm => ?_)
    have h1 : f.verts.map (applyRen []) = f.verts :=
      map_eq_self_of f.verts _ (fun i _ => rfl)
    rw [h1, (hf f hfm).2]
  rw [hmape, hmapf]
  have hfile : m.edges.filter (fun e => e.v1 ≠ e.v2) = m.edges := by
    rw [List.filter_eq_self]
    intro e hem
    simpa using he1 e hem
  have hfilf : m.faces.filter (fun f => 3 ≤ f.verts.length) = m.faces := by
    rw [List.filter_eq_self]
    intro f hfm
    simpa using (hf f hfm).1
  rw [hfile, hfilf]
  have hded : dedupEdges m.edges = m.edges := by
    unfold dedupEdges
    have := dedupFold_id m.edges []
      (by intro d hd; exact absurd hd (List.not_mem_nil d)) he2
    simpa using this
  rw [hded]

/-- When no vertex would split any edge, the crossing-resolution double loop
leaves the accumulator unchanged. -/
theorem joinFold_id (m : Mesh) (acc : List ℕ) (edgeIds vertIds : List ℕ)
    (h : ∀ vid ∈ vertIds, ∀ eid ∈ edgeIds, wouldSplit m vid eid = false) :
    vertIds.foldl
        (fun a vid => edgeIds.foldl (fun a2 eid => joinStep a2 vid eid) a)
        (m, acc)
      = (m, acc) := by
  have hinner : ∀ vid, (∀ eid ∈ edgeIds, wouldSplit m vid eid = false) →
      ∀ (l : List ℕ), (∀ eid ∈ l, eid ∈ edgeIds) →
        l.foldl (fun a2 eid => joinStep a2 vid eid) (m, acc) = (m, acc) := by
    intro vid hvid l
    induction l with
    | nil => intro _; rfl
    | cons e t ih =>
      intro hl
      simp only [List.foldl_cons]
      have hstep : joinStep (m, acc) vid e = (m, acc) := by
        show (if wouldSplit m vid e then _ else (m, acc)) = (m, acc)
        rw [hvid e (hl e (List.mem_cons_self e t))]
        rfl
      rw [hstep]
      exact ih (fun eid heid => hl eid (List.mem_cons_of_mem e heid))
  induction vertIds with
  | nil => rfl
  | cons v t ih =>
    simp only [List.foldl_cons]
    rw [hinner v (h v (List.mem_cons_self v t)) edgeIds (fun e he => he)]
    exact ih (fun vid hvid eid heid => h vid (List.mem_cons_of_mem v hvid) eid heid)

/-- Under the no-crossing condition and vertex separation, the whole
crossing-resolution pass returns the mesh unchanged with no new vertices. -/
theorem join_id (m : Mesh) (edgeIds vertIds : List ℕ)
    (h : ∀ vid ∈ vertIds, ∀ eid ∈ edgeIds, wouldSplit m vid eid = false)
    (hm : remove_doubles m (1 / 100) = m) :
    join_intersecting_verts_and_edges m edgeIds vertIds = (m, []) := by
  unfold join_intersecting_verts_and_edges
  rw [joinFold_id m [] edgeIds vertIds h]
  simp only [hm]
  rfl

theorem vec2_eq_iff (p q : Vec2) : p = q ↔ p.x = q.x ∧ p.y = q.y := by
  cases p
  cases q
  simp

theorem source_mem_nodeLocs (skeleton : List Arc) (a : Arc) (ha : a ∈ skeleton) :
    a.source ∈ nodeLocs skeleton := by
  unfold nodeLocs
  exact List.mem_flatMap.2 ⟨a, ha, List.mem_cons_self _ _⟩

theorem sink_mem_nodeLocs (skeleton : List Arc) (a : Arc) (s : Vec2)
    (ha : a ∈ skeleton) (hs : s ∈ a.sinks) : s ∈ nodeLocs skeleton := by
  unfold nodeLocs
  exact List.mem_flatMap.2 ⟨a, ha, List.mem_cons_of_mem _ hs⟩

/-- `createEdge` leaves vertices and faces alone and preserves edge
well-formedness when its endpoints differ. -/
theorem createEdge_spec (m : Mesh) (a b : ℕ) (hab : a ≠ b)
    (he1 : ∀ e ∈ m.edges, e.v1 ≠ e.v2)
    (he2 : m.edges.Pairwise (fun e d => samePair e d = false)) :
    (createEdge m a b).1.verts = m.verts
      ∧ (createEdge m a b).1.faces = m.faces
      ∧ (∀ e ∈ (createEdge m a b).1.edges, e.v1 ≠ e.v2)
      ∧ (createEdge m a b).1.edges.Pairwise (fun e d => samePair e d = false) := by
  unfold createEdge
  cases hf : edgeBetween m a b with
  | some e => exact ⟨rfl, rfl, he1, he2⟩
  | none =>
    refine ⟨rfl, rfl, ?_, ?_⟩
    · intro e hem
      rcases List.mem_append.1 hem with h1 | h1
      · exact he1 e h1
      · rw [List.mem_singleton] at h1
        subst h1
        exact hab
    · rw [List.pairwise_append]
      refine ⟨he2, List.pairwise_singleton _ _, ?_⟩
      intro d hd e2 he2m
      rw [List.mem_singleton] at he2m
      subst he2m
      unfold edgeBetween at hf
      rw [List.find?_eq_none] at hf
      have hd2 := hf d hd
      unfold samePair
      simpa using hd2

/-- The two outcomes of the source-vertex phase. -/
theorem sourceVert_cases (skeleton : List Arc) (medianZ scale : ℚ) (m : Mesh)
    (src : Vec2) :
    (∃ v, vert_at_loc src m.verts none = some v
        ∧ getOrCreateSourceVert skeleton medianZ scale m src = (m, v, false))
      ∨ (vert_at_loc src m.verts none = none
        ∧ getOrCreateSourceVert skeleton medianZ scale m src
            = ({ m with
                  verts := m.verts ++ [⟨m.nextV,
                    ⟨src.x, src.y, medianZ + scale * lastSourceHeight skeleton src⟩⟩],
                  nextV := m.nextV + 1 },
               ⟨m.nextV,
                  ⟨src.x, src.y, medianZ + scale * lastSourceHeight skeleton src⟩⟩,
               true)) := by
  unfold getOrCreateSourceVert make_vert
  cases hf : vert_at_loc src m.verts none with
  | some v => exact Or.inl ⟨v, rfl, rfl⟩
  | none => exact Or.inr ⟨rfl, rfl⟩

/-- The two outcomes of the sink-vertex phase. -/
theorem sinkVert_cases (skeleton : List Arc) (medianZ scale : ℚ) (m : Mesh)
    (sink : Vec2) :
    (∃ v, vert_at_loc sink m.verts none = some v
        ∧ getOrCreateSinkVert skeleton medianZ scale m sink = (m, v, false))
      ∨ (vert_at_loc sink m.verts none = none
        ∧ getOrCreateSinkVert skeleton medianZ scale m sink
            = ({ m with
                  verts := m.verts ++ [⟨m.nextV,
                    ⟨sink.x, sink.y, medianZ + scale * minSinkHeight skeleton sink⟩⟩],
                  nextV := m.nextV + 1 },
               ⟨m.nextV,
                  ⟨sink.x, sink.y, medianZ + scale * minSinkHeight skeleton sink⟩⟩,
               true)) := by
  unfold getOrCreateSinkVert make_vert
  cases hf : vert_at_loc sink m.verts none with
  | some v => exact Or.inl ⟨v, rfl, rfl⟩
  | none => exact Or.inr ⟨rfl, rfl⟩

/-- A vertex created after a failed lookup shares its location with no
already-created vertex. -/
theorem created_fresh (m0 : Mesh) (C : List Vert) (p : Vec2) (verts : List Vert)
    (hverts : verts = m0.verts ++ C)
    (hnone : vert_at_loc p verts none = none) :
    ∀ w ∈ C, ¬(w.co.x = p.x ∧ w.co.y = p.y) := by
  intro w hw hcontra
  have hmatch : matchesLoc p w = true := matchesLoc_self p w hcontra.1 hcontra.2
  have hfalse := (vert_at_loc_none_iff p verts).1 hnone w
    (by rw [hverts]; exact List.mem_append.2 (Or.inr hw))
  rw [hmatch] at hfalse
  exact absurd hfalse (by simp)

theorem mem_extended (m0 : Mesh) (C D : List Vert) (v : Vert)
    (h : v ∈ m0.verts ++ C) : v ∈ m0.verts ++ (C ++ D) := by
  rcases List.mem_append.1 h with h1 | h1
  · exact List.mem_append.2 (Or.inl h1)
  · exact List.mem_append.2 (Or.inr (List.mem_append.2 (Or.inl h1)))

/-- One sink step preserves the creation-loop invariant, extending the
created-vertex list by at most the new sink vertex. -/
theorem processSink_inv (m0 : Mesh) (skeleton : List Arc) (medianZ scale : ℚ)
    (a : Arc) (ha : a ∈ skeleton) (vsrc : ℕ) (st : VEState) (C : List Vert)
    (sink : Vec2) (hsink : sink ∈ a.sinks)
    (hinv : VEInv m0 skeleton medianZ scale st.m C) :
    ∃ D, VEInv m0 skeleton medianZ scale
      (processSink skeleton medianZ scale vsrc st sink).m (C ++ D) := by
  obtain ⟨hverts, hchar, hpair, he1, he2, hfaces⟩ := hinv
  rcases sinkVert_cases skeleton medianZ scale st.m sink with ⟨v, hfind, heq⟩ | ⟨hfind, heq⟩
  · refine ⟨[], ?_⟩
    rw [List.append_nil]
    have hps : processSink skeleton medianZ scale vsrc st sink
        = if v.id ≠ vsrc then
            ⟨(createEdge st.m vsrc v.id).1,
              st.skEdges ++ (createEdge st.m vsrc v.id).2, st.skVerts ++ [v.id]⟩
          else ⟨st.m, st.skEdges, st.skVerts ++ [v.id]⟩ := by
      unfold processSink
      rw [heq]
    rw [hps]
    by_cases hid : v.id ≠ vsrc
    · rw [if_pos hid]
      obtain ⟨hcv, hcf, hce1, hce2⟩ := createEdge_spec st.m vsrc v.id (Ne.symm hid) he1 he2
      exact ⟨by rw [hcv, hverts], hchar, hpair, hce1, hce2, by rw [hcf, hfaces]⟩
    · rw [if_neg hid]
      exact ⟨hverts, hchar, hpair, he1, he2, hfaces⟩
  · set nv : Vert :=
      ⟨st.m.nextV, ⟨sink.x, sink.y, medianZ + scale * minSinkHeight skeleton sink⟩⟩ with hnv
    set m2 : Mesh := { st.m with verts := st.m.verts ++ [nv], nextV := st.m.nextV + 1 } with hm2
    refine ⟨[nv], ?_⟩
    have hps : processSink skeleton medianZ scale vsrc st sink
        = if nv.id ≠ vsrc then
            ⟨(createEdge m2 vsrc nv.id).1,
              st.skEdges ++ (createEdge m2 vsrc nv.id).2, st.skVerts ++ [nv.id]⟩
          else ⟨m2, st.skEdges, st.skVerts ++ [nv.id]⟩ := by
      unfold processSink
      rw [heq]
    have hm2verts : m2.verts = m0.verts ++ (C ++ [nv]) := by
      show st.m.verts ++ [nv] = m0.verts ++ (C ++ [nv])
      rw [hverts, List.append_assoc]
    have hchar2 : ∀ v ∈ C ++ [nv], ∃ p ∈ nodeLocs skeleton,
        v.co.x = p.x ∧ v.co.y = p.y
          ∧ (((∃ b ∈ skeleton, b.source = p)
                ∧ v.co.z = medianZ + scale * lastSourceHeight skeleton p)
            ∨ ((∃ b ∈ skeleton, p ∈ b.sinks)
                ∧ v.co.z = medianZ + scale * minSinkHeight skeleton p)) := by
      intro w hw
      rcases List.mem_append.1 hw with h1 | h1
      · exact hchar w h1
      · rw [List.mem_singleton] at h1
        subst h1
        exact ⟨sink, sink_mem_nodeLocs skeleton a sink ha hsink, rfl, rfl,
          Or.inr ⟨⟨a, ha, hsink⟩, rfl⟩⟩
    have hpair2 : (C ++ [nv]).Pairwise
        (fun v w => ¬(v.co.x = w.co.x ∧ v.co.y = w.co.y)) := by
      rw [List.pairwise_append]
      refine ⟨hpair, List.pairwise_singleton _ _, ?_⟩
      intro w hw x hx
      rw [List.mem_singleton] at hx
      subst hx
      exact created_fresh m0 C sink st.m.verts hverts hfind w hw
    rw [hps]
    by_cases hid : nv.id ≠ vsrc
    · rw [if_pos hid]
      obtain ⟨hcv, hcf, hce1, hce2⟩ := createEdge_spec m2 vsrc nv.id (Ne.symm hid) he1 he2
      exact ⟨by rw [hcv]; exact hm2verts, hchar2, hpair2, hce1, hce2,
        by rw [hcf]; exact hfaces⟩
    · rw [if_neg hid]
      exact ⟨hm2verts, hchar2, hpair2, he1, he2, hfaces⟩

/-- The sink loop of one arc preserves the invariant. -/
theorem sinkFold_inv (m0 : Mesh) (skeleton : List Arc) (medianZ scale : ℚ)
    (a : Arc) (ha : a ∈ skeleton) (vsrc : ℕ) :
    ∀ (sinks : List Vec2), (∀ s ∈ sinks, s ∈ a.sinks) →
      ∀ (st : VEState) (C : List Vert), VEInv m0 skeleton medianZ scale st.m C →
        ∃ D, VEInv m0 skeleton medianZ scale
          ((sinks.foldl (processSink skeleton medianZ scale vsrc) st).m) (C ++ D) := by
  intro sinks
  induction sinks with
  | nil =>
    intro _ st C hinv
    exact ⟨[], by rw [List.append_nil]; exact hinv⟩
  | cons s t ih =>
    intro hs st C hinv
    simp only [List.foldl_cons]
    obtain ⟨D1, h1⟩ := processSink_inv m0 skeleton medianZ scale a ha vsrc st C s
      (hs s (List.mem_cons_self s t)) hinv
    obtain ⟨D2, h2⟩ := ih (fun x hx => hs x (List.mem_cons_of_mem s hx))
      (processSink skeleton medianZ scale vsrc st s) (C ++ D1) h1
    exact ⟨D1 ++ D2, by rw [← List.append_assoc]; exact h2⟩

/-- One arc step preserves the invariant and leaves a vertex matching the
arc's source location. -/
theorem processArc_inv (m0 : Mesh) (skeleton : List Arc) (medianZ scale : ℚ)
    (st : VEState) (C : List Vert) (a : Arc) (ha : a ∈ skeleton)
    (hinv : VEInv m0 skeleton medianZ scale st.m C) :
    ∃ D, VEInv m0 skeleton medianZ scale
        (processArc skeleton medianZ scale st a).m (C ++ D)
      ∧ ∃ v ∈ (processArc skeleton medianZ scale st a).m.verts,
          matchesLoc a.source v = true := by
  obtain ⟨hverts, hchar, hpair, he1, he2, hfaces⟩ := hinv
  rcases sourceVert_cases skeleton medianZ scale st.m a.source with
    ⟨v, hfind, heq⟩ | ⟨hfind, heq⟩
  · have hpa : processArc skeleton medianZ scale st a
        = a.sinks.foldl (processSink skeleton medianZ scale v.id)
            ⟨st.m, st.skEdges, st.skVerts⟩ := by
      unfold processArc
      rw [heq]
      rfl
    obtain ⟨hv1, hv2, _⟩ := vert_at_loc_some a.source st.m.verts v hfind
    obtain ⟨D, hD⟩ := sinkFold_inv m0 skeleton medianZ scale a ha v.id a.sinks
      (fun s hs => hs) ⟨st.m, st.skEdges, st.skVerts⟩ C
      ⟨hverts, hchar, hpair, he1, he2, hfaces⟩
    rw [hpa]
    refine ⟨D, hD, v, ?_, hv2⟩
    have hfin := hD.1
    rw [hfin]
    rw [hverts] at hv1
    exact mem_extended m0 C D v hv1
  · set nv : Vert :=
      ⟨st.m.nextV,
        ⟨a.source.x, a.source.y, medianZ + scale * lastSourceHeight skeleton a.source⟩⟩
      with hnv
    set m2 : Mesh := { st.m with verts := st.m.verts ++ [nv], nextV := st.m.nextV + 1 }
      with hm2
    have hpa : processArc skeleton medianZ scale st a
        = a.sinks.foldl (processSink skeleton medianZ scale nv.id)
            ⟨m2, st.skEdges, st.skVerts ++ [nv.id]⟩ := by
      unfold processArc
      rw [heq]
      rfl
    have hm2verts : m2.verts = m0.verts ++ (C ++ [nv]) := by
      show st.m.verts ++ [nv] = m0.verts ++ (C ++ [nv])
      rw [hverts, List.append_assoc]
    have hchar2 : ∀ v ∈ C ++ [nv], ∃ p ∈ nodeLocs skeleton,
        v.co.x = p.x ∧ v.co.y = p.y
          ∧ (((∃ b ∈ skeleton, b.source = p)
                ∧ v.co.z = medianZ + scale * lastSourceHeight skeleton p)
            ∨ ((∃ b ∈ skeleton, p ∈ b.sinks)
                ∧ v.co.z = medianZ + scale * minSinkHeight skeleton p)) := by
      intro w hw
      rcases List.mem_append.1 hw with h1 | h1
      · exact hchar w h1
      · rw [List.mem_singleton] at h1
        subst h1
        exact ⟨a.source, source_mem_nodeLocs skeleton a ha, rfl, rfl,
          Or.inl ⟨⟨a, ha, rfl⟩, rfl⟩⟩
    have hpair2 : (C ++ [nv]).Pairwise
        (fun v w => ¬(v.co.x = w.co.x ∧ v.co.y = w.co.y)) := by
      rw [List.pairwise_append]
      refine ⟨hpair, List.pairwise_singleton _ _, ?_⟩
      intro w hw x hx
      rw [List.mem_singleton] at hx
      subst hx
      exact created_fresh m0 C a.source st.m.verts hverts hfind w hw
    obtain ⟨D, hD⟩ := sinkFold_inv m0 skeleton medianZ scale a ha nv.id a.sinks
      (fun s hs => hs) ⟨m2, st.skEdges, st.skVerts ++ [nv.id]⟩ (C ++ [nv])
      ⟨hm2verts, hchar2, hpair2, he1, he2, hfaces⟩
    rw [hpa]
    refine ⟨[nv] ++ D, by rw [← List.append_assoc]; exact hD, nv, ?_,
      matchesLoc_self a.source nv rfl rfl⟩
    have hfin := hD.1
    rw [hfin]
    refine mem_extended m0 (C ++ [nv]) D nv ?_
    exact List.mem_append.2 (Or.inr (List.mem_append.2 (Or.inr (List.mem_singleton.2 rfl))))

/-- The whole arc loop preserves the invariant, and after it every processed
arc's source location carries a matching vertex. -/
theorem veFold_inv (m0 : Mesh) (skeleton : List Arc) (medianZ scale : ℚ) :
    ∀ (l : List Arc), (∀ x ∈ l, x ∈ skeleton) →
      ∀ (st : VEState) (C : List Vert), VEInv m0 skeleton medianZ scale st.m C →
        ∃ D, VEInv m0 skeleton medianZ scale
            ((l.foldl (processArc skeleton medianZ scale) st).m) (C ++ D)
          ∧ ∀ x ∈ l, ∃ v ∈ (l.foldl (processArc skeleton medianZ scale) st).m.verts,
              matchesLoc x.source v = true := by
  intro l
  induction l with
  | nil =>
    intro _ st C hinv
    exact ⟨[], by rw [List.append_nil]; exact hinv,
      by intro x hx; exact absurd hx (List.not_mem_nil x)⟩
  | cons b t ih =>
    intro hl st C hinv
    simp only [List.foldl_cons]
    obtain ⟨D1, h1, v, hv, hvm⟩ := processArc_inv m0 skeleton medianZ scale st C b
      (hl b (List.mem_cons_self b t)) hinv
    obtain ⟨D2, h2, hmt⟩ := ih (fun x hx => hl x (List.mem_cons_of_mem b hx))
      (processArc skeleton medianZ scale st b) (C ++ D1) h1
    refine ⟨D1 ++ D2, by rw [← List.append_assoc]; exact h2, ?_⟩
    intro x hx
    rcases List.mem_cons.1 hx with h | h
    · subst h
      refine ⟨v, ?_, hvm⟩
      rw [h2.1]
      rw [h1.1] at hv
      exact mem_extended m0 (C ++ D1) D2 v hv
    · exact hmt x h

set_option maxHeartbeats 2000000 in
/-- C1 (amended): for every hip roof generated with requested height H > 0 on
a well-formed footprint, with positive arc heights, skeleton nodes in general
position (pairwise separated, separated from the footprint vertices, no
crossing splits), arcs sharing a source sharing its height, and some
maximal-height arc's source listed as no sink, the created ridge vertices
satisfy: every one has z strictly above footprint_z and at most
footprint_z + H, and some one reaches footprint_z + H exactly.  (Strictness
below the apex for the non-maximal vertices — the original claim — fails
whenever several skeleton nodes share the maximal height, see
`C1_counterexample`.) -/
theorem C1_amended (m0 : Mesh) (skeleton : List Arc) (origIds : List ℕ)
    (medianZ H : ℚ)
    (hwf : MeshWf m0)
    (hne : skeleton ≠ [])
    (hpos : ∀ a ∈ skeleton, 0 < a.height)
    (hH : 0 < H)
    (hsep : ∀ p ∈ nodeLocs skeleton, ∀ q ∈ nodeLocs skeleton, p ≠ q →
        sq (1 / 100) < locDistSq p q)
    (hsepm : ∀ p ∈ nodeLocs skeleton, ∀ v ∈ m0.verts,
        sq (1 / 100) < sq (v.co.x - p.x) + sq (v.co.y - p.y))
    (hsrc : ∀ a ∈ skeleton, ∀ b ∈ skeleton, a.source = b.source → a.height = b.height)
    (happex : ∃ a ∈ skeleton, a.height = maxArcHeight skeleton
        ∧ ∀ b ∈ skeleton, a.source ∉ b.sinks)
    (hnosplit : NoCrossings m0 skeleton origIds medianZ (H / maxArcHeight skeleton)) :
    ∃ C, (create_hiproof_verts_and_edges m0 skeleton origIds medianZ
            (H / maxArcHeight skeleton)).1.verts = m0.verts ++ C
      ∧ C ≠ []
      ∧ (∀ v ∈ C, medianZ < v.co.z ∧ v.co.z ≤ medianZ + H)
      ∧ (∃ v ∈ C, v.co.z = medianZ + H) := by
  obtain ⟨hwv, hwe1, hwe2, hwff⟩ := hwf
  have hM0 : 0 < maxArcHeight skeleton := maxArcHeight_pos skeleton hne hpos
  set M := maxArcHeight skeleton with hMdef
  set scale := H / M with hscaledef
  have hscale0 : 0 < scale := div_pos hH hM0
  have hscaleM : scale * M = H := div_mul_cancel₀ H (ne_of_gt hM0)
  obtain ⟨C, hinv, hmatch⟩ := veFold_inv m0 skeleton medianZ scale skeleton
    (fun x hx => hx) ⟨m0, [], []⟩ []
    ⟨(List.append_nil m0.verts).symm,
      (by intro v hv; exact absurd hv (List.not_mem_nil v)),
      List.Pairwise.nil, hwe1, hwe2, rfl⟩
  rw [List.nil_append] at hinv
  have hinv2 : VEInv m0 skeleton medianZ scale (hipVEFold m0 skeleton medianZ scale).m C :=
    hinv
  have hmatch2 : ∀ x ∈ skeleton,
      ∃ v ∈ (hipVEFold m0 skeleton medianZ scale).m.verts, matchesLoc x.source v = true :=
    hmatch
  obtain ⟨hverts, hchar, hpair, he1, he2, hfaces⟩ := hinv2
  -- pairwise separation of the final vertex list
  have hsepverts : (hipVEFold m0 skeleton medianZ scale).m.verts.Pairwise
      (fun v w => sq (1 / 100) < distSq v.co w.co) := by
    rw [hverts, List.pairwise_append]
    refine ⟨hwv, ?_, ?_⟩
    · refine List.Pairwise.imp_of_mem ?_ hpair
      intro v w hv hw hloc
      obtain ⟨p, hp, hpx, hpy, _⟩ := hchar v hv
      obtain ⟨q, hq, hqx, hqy, _⟩ := hchar w hw
      have hpq : p ≠ q := by
        intro hpqe
        exact hloc ⟨by rw [hpx, hqx, hpqe], by rw [hpy, hqy, hpqe]⟩
      have hs := hsep p hp q hq hpq
      unfold locDistSq at hs
      have hz : 0 ≤ sq (v.co.z - w.co.z) := sq_nonneg_q _
      unfold distSq
      rw [hpx, hpy, hqx, hqy]
      linarith
    · intro v hv w hw
      obtain ⟨q, hq, hqx, hqy, _⟩ := hchar w hw
      have hs := hsepm q hq v hv
      have hz : 0 ≤ sq (v.co.z - w.co.z) := sq_nonneg_q _
      unfold distSq
      rw [hqx, hqy]
      linarith
  have hsq1 : sq (1 / 10000 : ℚ) ≤ sq (1 / 100 : ℚ) := by unfold sq; norm_num
  have hsq2 : sq (1 / 100 : ℚ) ≤ sq (1 / 100 : ℚ) := le_refl _
  have hpw1 : (hipVEFold m0 skeleton medianZ scale).m.verts.Pairwise
      (fun v w => ¬(distSq v.co w.co ≤ sq (1 / 10000))) :=
    hsepverts.imp (fun h hc => absurd (le_trans hc hsq1) (not_le.2 h))
  have hpw2 : (hipVEFold m0 skeleton medianZ scale).m.verts.Pairwise
      (fun v w => ¬(distSq v.co w.co ≤ sq (1 / 100))) :=
    hsepverts.imp (fun h hc => absurd (le_trans hc hsq2) (not_le.2 h))
  have hface2 : ∀ f ∈ (hipVEFold m0 skeleton medianZ scale).m.faces,
      3 ≤ f.verts.length ∧ collapseCycle f.verts = f.verts := by
    rw [hfaces]
    exact hwff
  have hrd1 : remove_doubles (hipVEFold m0 skeleton medianZ scale).m (1 / 10000)
      = (hipVEFold m0 skeleton medianZ scale).m :=
    remove_doubles_id _ _ hpw1 he1 he2 hface2
  have hrd2 : remove_doubles (hipVEFold m0 skeleton medianZ scale).m (1 / 100)
      = (hipVEFold m0 skeleton medianZ scale).m :=
    remove_doubles_id _ _ hpw2 he1 he2 hface2
  have hjoin : join_intersecting_verts_and_edges
        (remove_doubles (hipVEFold m0 skeleton medianZ scale).m (1 / 10000))
        (hipVEFold m0 skeleton medianZ scale).skEdges
        (hipSkVertsFiltered
          (remove_doubles (hipVEFold m0 skeleton medianZ scale).m (1 / 10000))
          (hipVEFold m0 skeleton medianZ scale).skEdges origIds
          (hipVEFold m0 skeleton medianZ scale).skVerts)
      = (remove_doubles (hipVEFold m0 skeleton medianZ scale).m (1 / 10000), []) := by
    refine join_id _ _ _ hnosplit ?_
    rw [hrd1]
    exact hrd2
  have hcreate : (create_hiproof_verts_and_edges m0 skeleton origIds medianZ scale).1
      = (join_intersecting_verts_and_edges
          (remove_doubles (hipVEFold m0 skeleton medianZ scale).m (1 / 10000))
          (hipVEFold m0 skeleton medianZ scale).skEdges
          (hipSkVertsFiltered
            (remove_doubles (hipVEFold m0 skeleton medianZ scale).m (1 / 10000))
            (hipVEFold m0 skeleton medianZ scale).skEdges origIds
            (hipVEFold m0 skeleton medianZ scale).skVerts)).1 := rfl
  have hfinal : (create_hiproof_verts_and_edges m0 skeleton origIds medianZ scale).1
      = (hipVEFold m0 skeleton medianZ scale).m := by
    rw [hcreate, hjoin, hrd1]
  refine ⟨C, by rw [hfinal]; exact hverts, ?_, ?_, ?_⟩
  · -- C is nonempty: the maximal arc source is matched by a created vertex
    obtain ⟨a, ha, haM, hasink⟩ := happex
    obtain ⟨v, hvmem, hvmatch⟩ := hmatch2 a ha
    have hp0 : a.source ∈ nodeLocs skeleton := source_mem_nodeLocs skeleton a ha
    rw [hverts] at hvmem
    rcases List.mem_append.1 hvmem with hvm0 | hvC
    · have := not_matchesLoc_of_sep a.source v (hsepm a.source hp0 v hvm0)
      rw [hvmatch] at this
      exact absurd this (by simp)
    · exact List.ne_nil_of_mem hvC
  · -- bounds for every created vertex
    intro v hv
    obtain ⟨p, hp, hpx, hpy, hdisj⟩ := hchar v hv
    have hbound : ∃ h0, 0 < h0 ∧ h0 ≤ M
        ∧ v.co.z = medianZ + scale * h0 := by
      rcases hdisj with ⟨hex, hz⟩ | ⟨hex, hz⟩
      · obtain ⟨b, hb, hbp, hheq⟩ := lastSourceHeight_eq skeleton p hex
        exact ⟨lastSourceHeight skeleton p, hheq ▸ hpos b hb,
          hheq ▸ maxArcHeight_ge skeleton b hb, hz⟩
      · obtain ⟨b, hb, hbp, hheq⟩ := minSinkHeight_eq skeleton p hex
        exact ⟨minSinkHeight skeleton p, hheq ▸ hpos b hb,
          hheq ▸ maxArcHeight_ge skeleton b hb, hz⟩
    obtain ⟨h0, hh0, hhM, hz⟩ := hbound
    constructor
    · have := mul_pos hscale0 hh0
      rw [hz]
      linarith
    · have hle : scale * h0 ≤ scale * M :=
        mul_le_mul_of_nonneg_left hhM (le_of_lt hscale0)
      rw [hz]
      rw [hscaleM] at hle
      linarith
  · -- apex attainment
    obtain ⟨a, ha, haM, hasink⟩ := happex
    obtain ⟨v, hvmem, hvmatch⟩ := hmatch2 a ha
    have hp0 : a.source ∈ nodeLocs skeleton := source_mem_nodeLocs skeleton a ha
    rw [hverts] at hvmem
    rcases List.mem_append.1 hvmem with hvm0 | hvC
    · have := not_matchesLoc_of_sep a.source v (hsepm a.source hp0 v hvm0)
      rw [hvmatch] at this
      exact absurd this (by simp)
    · obtain ⟨q, hq, hqx, hqy, hdisj⟩ := hchar v hvC
      have hqp : q = a.source := by
        by_contra hne2
        have hs := hsep q hq a.source hp0 hne2
        unfold locDistSq at hs
        have := not_matchesLoc_of_sep a.source v (by rw [hqx, hqy]; exact hs)
        rw [hvmatch] at this
        exact absurd this (by simp)
      rcases hdisj with ⟨hex, hz⟩ | ⟨⟨b, hb, hbs⟩, _⟩
      · refine ⟨v, hvC, ?_⟩
        have hlsh : lastSourceHeight skeleton q = M := by
          refine lastSourceHeight_const skeleton q M ⟨a, ha, hqp.symm⟩ ?_
          intro b hb hbq
          rw [← haM]
          exact hsrc b hb a ha (by rw [hbq, hqp])
        rw [hz, hlsh, hscaleM]
      · exact absurd (hqp ▸ hbs) (hasink b hb)

/-- Witness for C1_amended: the 4x4 square footprint at z = 0 with the
one-arc skeleton (source (2,2), height 2, sink (1,1)) and requested
height 2 satisfies every hypothesis and the height bounds. -/
theorem C1_amended_witness :
    ∃ C, (create_hiproof_verts_and_edges squareMesh c1wSkeleton [0, 1, 2, 3] 0
            (2 / maxArcHeight c1wSkeleton)).1.verts = squareMesh.verts ++ C
      ∧ C ≠ []
      ∧ (∀ v ∈ C, (0 : ℚ) < v.co.z ∧ v.co.z ≤ 0 + 2)
      ∧ (∃ v ∈ C, v.co.z = 0 + 2) :=
  C1_amended squareMesh c1wSkeleton [0, 1, 2, 3] 0 2
    (by unfold MeshWf; with_unfolding_all decide)
    (List.cons_ne_nil _ _)
    (by with_unfolding_all decide)
    (by with_unfolding_all decide)
    (by with_unfolding_all decide)
    (by with_unfolding_all decide)
    (by with_unfolding_all decide)
    (by with_unfolding_all decide)
    (by unfold NoCrossings; with_unfolding_all decide)

end RoofTypes
